import Mathlib

/-!
Verification of the WhatsAppExplorer core: a shallow embedding of
`src/messageParser.js` (transcript parsing, date normalization, media
classification) and `src/zipHandler.js` (archive extraction, LRU-cached
blob-URL management), together with theorems settling the frozen claims
about the natural-language specification.

Strings are modelled as `List Char` (`Str`).  The JavaScript regular
expressions used by the source are embedded by hand-compiling each
pattern into continuation-passing matchers whose backtracking order
mirrors a standard backtracking regex engine (greedy pieces try longest
first, lazy pieces shortest first, the rightmost piece backtracks first),
which is the observable semantics of JavaScript `RegExp` for these
patterns.
-/

namespace WAE

/-- JavaScript strings, modelled as lists of characters. -/
abbrev Str := List Char

/-- Shorthand to turn a Lean string literal into the model type. -/
def str (s : String) : Str := s.data

/-- The JavaScript `\s` class / `String.prototype.trim` whitespace set
(WhiteSpace ∪ LineTerminator). -/
def isJsSpace (c : Char) : Bool :=
  c = ' ' ∨ ('\t' ≤ c ∧ c ≤ '\x0d') ∨ c = ' ' ∨ c = ' ' ∨
  (' ' ≤ c ∧ c ≤ ' ') ∨ c = ' ' ∨ c = ' ' ∨
  c = ' ' ∨ c = ' ' ∨ c = '　' ∨ c = '﻿'

/-- The regex `\d` class. -/
def isDigitCh (c : Char) : Bool := '0' ≤ c ∧ c ≤ '9'

/-- The regex `\w` class: `[A-Za-z0-9_]`. -/
def isWordCh (c : Char) : Bool :=
  ('a' ≤ c ∧ c ≤ 'z') ∨ ('A' ≤ c ∧ c ≤ 'Z') ∨ isDigitCh c ∨ c = '_'

/-- The class `[\w\-]` used by the leading-filename pattern. -/
def isWordDashCh (c : Char) : Bool := isWordCh c ∨ c = '-'

/-- The regex `.` class: any character except a line terminator. -/
def isDotCh (c : Char) : Bool :=
  ¬ (c = '\n' ∨ c = '\r' ∨ c = ' ' ∨ c = ' ')

/-- The date separator class `[/.]`. -/
def isSepCh (c : Char) : Bool := c = '/' ∨ c = '.'

/-- Model of `String.prototype.trim`. -/
def trim (s : Str) : Str :=
  ((s.dropWhile isJsSpace).reverse.dropWhile isJsSpace).reverse

/-- ASCII lowering, the effect of `toLowerCase` on the inputs the source
compares (all comparison literals are ASCII). -/
def lower (s : Str) : Str := s.map Char.toLower

/-- Model of `String.prototype.split(c)` for a single-character separator, and
`split(/[/.]/)` for a predicate: JavaScript semantics (empty input gives
one empty field, adjacent separators give empty fields). -/
def splitSeps (p : Char → Bool) : Str → List Str
  | [] => [[]]
  | c :: rest =>
    if p c then [] :: splitSeps p rest
    else
      match splitSeps p rest with
      | g :: gs => (c :: g) :: gs
      | [] => [[c]]

/-- Model of `path.split('/')`, `filename.split('.')`, `content.split('\n')`. -/
def splitOnCh (sep : Char) (s : Str) : List Str := splitSeps (· = sep) s

/-! ### Backtracking regex combinators

Each matcher consumes a prefix of the input and passes the rest to a
continuation; `Option` failure makes the caller try the next
alternative, which yields exactly the backtracking order of a
JavaScript regex engine on these patterns. -/

/-- First committed success over a list of candidates. -/
def firstSome (f : α → Option β) : List α → Option β
  | [] => none
  | a :: as =>
    match f a with
    | some b => some b
    | none => firstSome f as

/-- Length of the maximal prefix satisfying `p`. -/
def runLen (p : Char → Bool) : Str → Nat
  | [] => 0
  | c :: cs => if p c then runLen p cs + 1 else 0

/-- Greedy repetition `p{lo,hi}` (with `hi = none` for `*`/`+`) of a
single-character class: try the longest feasible match first, handing
`(matched, rest)` to the continuation. -/
def repGreedy (p : Char → Bool) (lo : Nat) (hi : Option Nat) (s : Str)
    (k : Str → Str → Option β) : Option β :=
  let top := match hi with | none => runLen p s | some h => min h (runLen p s)
  if lo ≤ top then
    firstSome (fun len => k (s.take len) (s.drop len))
      ((List.range (top + 1 - lo)).map (fun i => top - i))
  else none

/-- Lazy repetition `p{lo,}?` of a single-character class: shortest
feasible match first. -/
def repLazy (p : Char → Bool) (lo : Nat) (s : Str)
    (k : Str → Str → Option β) : Option β :=
  let top := runLen p s
  if lo ≤ top then
    firstSome (fun len => k (s.take len) (s.drop len))
      ((List.range (top + 1 - lo)).map (fun i => lo + i))
  else none

/-- A literal character. -/
def litCh (c : Char) (s : Str) (k : Str → Option β) : Option β :=
  match s with
  | c' :: rest => if c' = c then k rest else none
  | [] => none

/-- A literal character sequence. -/
def litSeq (cs : Str) (s : Str) (k : Str → Option β) : Option β :=
  match cs with
  | [] => k s
  | c :: cs' => litCh c s (fun rest => litSeq cs' rest k)

/-- A greedy optional literal character (`,?`). -/
def optLitCh (c : Char) (s : Str) (k : Str → Option β) : Option β :=
  match litCh c s k with
  | some b => some b
  | none => k s

/-- Unanchored scan: try the matcher at each start position, leftmost
first (the behavior of `String.prototype.match` without `^`). -/
def scanFrom (m : Str → Option γ) : Str → Option γ
  | [] => m []
  | c :: rest =>
    match m (c :: rest) with
    | some g => some g
    | none => scanFrom m rest

/-! ### The source's regex patterns -/

/-- The date group `(\d{1,2}[/.]\d{1,2}[/.]\d{2,4})` shared by the
`bracket`, `dash` and `systemDash` patterns; hands the capture and the
rest to the continuation. -/
def dateG (s : Str) (k : Str → Str → Option β) : Option β :=
  repGreedy isDigitCh 1 (some 2) s (fun d1 r1 =>
    match r1 with
    | c1 :: r2 =>
      if isSepCh c1 then
        repGreedy isDigitCh 1 (some 2) r2 (fun d2 r3 =>
          match r3 with
          | c2 :: r4 =>
            if isSepCh c2 then
              repGreedy isDigitCh 2 (some 4) r4 (fun d3 r5 =>
                k (d1 ++ c1 :: (d2 ++ c2 :: d3)) r5)
            else none
          | [] => none)
      else none
    | [] => none)

/-- Model of `(?::\d{2})?` inside the time group, passing the matched text. -/
def optSecondsG (s : Str) (k : Str → Str → Option β) : Option β :=
  match litCh ':' s (fun r1 =>
      repGreedy isDigitCh 2 (some 2) r1 (fun ss r2 => k (':' :: ss) r2)) with
  | some b => some b
  | none => k [] s

/-- Model of `(?:\s*[AP]M)?` inside the time group, passing the matched text. -/
def optPeriodG (s : Str) (k : Str → Str → Option β) : Option β :=
  match repGreedy isJsSpace 0 none s (fun sp r1 =>
      match r1 with
      | c :: 'M' :: r2 => if c = 'A' ∨ c = 'P' then k (sp ++ [c, 'M']) r2 else none
      | _ => none) with
  | some b => some b
  | none => k [] s

/-- The time group `(\d{1,2}:\d{2}(?::\d{2})?(?:\s*[AP]M)?)` shared by
the three line patterns. -/
def timeG (s : Str) (k : Str → Str → Option β) : Option β :=
  repGreedy isDigitCh 1 (some 2) s (fun h r1 =>
    litCh ':' r1 (fun r2 =>
      repGreedy isDigitCh 2 (some 2) r2 (fun mm r3 =>
        optSecondsG r3 (fun sec r4 =>
          optPeriodG r4 (fun per r5 =>
            k (h ++ ':' :: (mm ++ sec ++ per)) r5)))))

/-- Model of `this.patterns.bracket`:
`^\[(date),?\s+(time)\]\s+([^:]+?):\s*(.*)` — captures
(date, time, sender, body). -/
def bracketMatch (line : Str) : Option (Str × Str × Str × Str) :=
  litCh '[' line (fun r0 =>
    dateG r0 (fun g1 r1 =>
      optLitCh ',' r1 (fun r2 =>
        repGreedy isJsSpace 1 none r2 (fun _ r3 =>
          timeG r3 (fun g2 r4 =>
            litCh ']' r4 (fun r5 =>
              repGreedy isJsSpace 1 none r5 (fun _ r6 =>
                repLazy (fun c => ¬ c = ':') 1 r6 (fun g3 r7 =>
                  litCh ':' r7 (fun r8 =>
                    repGreedy isJsSpace 0 none r8 (fun _ r9 =>
                      repGreedy isDotCh 0 none r9 (fun g4 _ =>
                        some (g1, g2, g3, g4))))))))))))

/-- Model of `this.patterns.dash`:
`^(date),?\s+(time)\s*-\s*([^:]+?):\s*(.*)`. -/
def dashMatch (line : Str) : Option (Str × Str × Str × Str) :=
  dateG line (fun g1 r1 =>
    optLitCh ',' r1 (fun r2 =>
      repGreedy isJsSpace 1 none r2 (fun _ r3 =>
        timeG r3 (fun g2 r4 =>
          repGreedy isJsSpace 0 none r4 (fun _ r5 =>
            litCh '-' r5 (fun r6 =>
              repGreedy isJsSpace 0 none r6 (fun _ r7 =>
                repLazy (fun c => ¬ c = ':') 1 r7 (fun g3 r8 =>
                  litCh ':' r8 (fun r9 =>
                    repGreedy isJsSpace 0 none r9 (fun _ r10 =>
                      repGreedy isDotCh 0 none r10 (fun g4 _ =>
                        some (g1, g2, g3, g4))))))))))))

/-- Model of `this.patterns.systemDash`:
`^(date),?\s+(time)\s*-\s*(.*)`. -/
def systemMatch (line : Str) : Option (Str × Str × Str) :=
  dateG line (fun g1 r1 =>
    optLitCh ',' r1 (fun r2 =>
      repGreedy isJsSpace 1 none r2 (fun _ r3 =>
        timeG r3 (fun g2 r4 =>
          repGreedy isJsSpace 0 none r4 (fun _ r5 =>
            litCh '-' r5 (fun r6 =>
              repGreedy isJsSpace 0 none r6 (fun _ r7 =>
                repGreedy isDotCh 0 none r7 (fun g3 _ =>
                  some (g1, g2, g3)))))))))

/-- Model of `(?::(\d{2}))?` in `parseDate`'s time regex, capturing the digits. -/
def optSecCap (s : Str) (k : Option Str → Str → Option β) : Option β :=
  match litCh ':' s (fun r1 =>
      repGreedy isDigitCh 2 (some 2) r1 (fun ss r2 => k (some ss) r2)) with
  | some b => some b
  | none => k none s

/-- Model of `(?:\s*([AP]M))?` in `parseDate`'s time regex, capturing `[AP]M`. -/
def optPeriodCap (s : Str) (k : Option Str → Str → Option β) : Option β :=
  match repGreedy isJsSpace 0 none s (fun _ r1 =>
      match r1 with
      | c :: 'M' :: r2 => if c = 'A' ∨ c = 'P' then k (some [c, 'M']) r2 else none
      | _ => none) with
  | some b => some b
  | none => k none s

/-- Model of `parseDate`'s time regex at one position:
`(\d{1,2}):(\d{2})(?::(\d{2}))?(?:\s*([AP]M))?`. -/
def timeCompsAt (s : Str) : Option (Str × Str × Option Str × Option Str) :=
  repGreedy isDigitCh 1 (some 2) s (fun h r1 =>
    litCh ':' r1 (fun r2 =>
      repGreedy isDigitCh 2 (some 2) r2 (fun mm r3 =>
        optSecCap r3 (fun sec r4 =>
          optPeriodCap r4 (fun per _ =>
            some (h, mm, sec, per))))))

/-- Model of `timeStr.match(/(\d{1,2}):(\d{2})(?::(\d{2}))?(?:\s*([AP]M))?/)`. -/
def timeSearch (s : Str) : Option (Str × Str × Option Str × Option Str) :=
  scanFrom timeCompsAt s

/-- Model of `this.patterns.attachment` (`<attached:\s*([^>]+)>`) at one
position: (capture, rest after the whole match). -/
def attachAt (s : Str) : Option (Str × Str) :=
  litSeq (str "<attached:") s (fun r1 =>
    repGreedy isJsSpace 0 none r1 (fun _ r2 =>
      repGreedy (fun c => ¬ c = '>') 1 none r2 (fun cap r3 =>
        litCh '>' r3 (fun r4 => some (cap, r4)))))

/-- Unanchored search for the attachment pattern, returning
(text before the match, capture, text after the match); `pre` holds the
already-scanned characters in reverse. -/
def attachSearch (pre : Str) (s : Str) : Option (Str × Str × Str) :=
  match attachAt s with
  | some (cap, post) => some (pre.reverse, cap, post)
  | none =>
    match s with
    | [] => none
    | c :: rest => attachSearch (c :: pre) rest

/-- The group star `(?:\s+[\w\-]+)*` in the leading-filename pattern.
Every iteration consumes at least two characters, so fuel `s.length`
gives the exact unbounded-star semantics. -/
def starSpWord (fuel : Nat) (s : Str) (k : Str → Option β) : Option β :=
  match fuel with
  | 0 => k s
  | fuel' + 1 =>
    match repGreedy isJsSpace 1 none s (fun _ r1 =>
        repGreedy isWordDashCh 1 none r1 (fun _ r2 => starSpWord fuel' r2 k)) with
    | some b => some b
    | none => k s

/-- The leading-filename pattern
`^([\w\-]+(?:\s+[\w\-]+)*\.\w{2,4})(?:\s|$)`, returning capture 1. -/
def filenameCap (s : Str) : Option Str :=
  match repGreedy isWordDashCh 1 none s (fun _ r1 =>
      starSpWord r1.length r1 (fun r2 =>
        litCh '.' r2 (fun r3 =>
          repGreedy isWordCh 2 (some 4) r3 (fun _ r4 =>
            match r4 with
            | [] => some r4
            | c :: _ => if isJsSpace c then some r4 else none)))) with
  | some rest => some (s.take (s.length - rest.length))
  | none => none

/-- The extension alternation of the `mediaExtensions` regex
`\.(jpg|…|vcf)$/i` in `extractMediaInfo`. -/
def mediaExtns : List Str :=
  [str "jpg", str "jpeg", str "png", str "gif", str "webp",
   str "mp4", str "3gp", str "mov", str "avi", str "mkv", str "webm",
   str "opus", str "mp3", str "aac", str "m4a", str "wav",
   str "pdf", str "doc", str "docx", str "xls", str "xlsx",
   str "ppt", str "pptx", str "txt", str "vcf"]

/-- Model of `mediaExtensions.test(s)`: does `s` end in a dot plus one of the
known extensions (case-insensitively)? -/
def mediaExtTest (s : Str) : Bool :=
  mediaExtns.any (fun e => ('.' :: e).isSuffixOf (lower s))

/-- The alternatives of `this.patterns.mediaOmitted`
(`/(<Media omitted>|image omitted|video omitted|audio omitted|document omitted|Contact card omitted|Location: https:\/\/maps\.google\.com)/i`),
lowered since the regex is case-insensitive.  Note the first
alternative includes the surrounding angle brackets. -/
def omittedPhrases : List Str :=
  [str "<media omitted>", str "image omitted", str "video omitted",
   str "audio omitted", str "document omitted", str "contact card omitted",
   str "location: https://maps.google.com"]

/-- Does `pat` occur at the start of the string? -/
def seqAt : Str → Str → Bool
  | [], _ => true
  | _ :: _, [] => false
  | p :: ps, c :: cs => p = c ∧ seqAt ps cs

/-- Does `pat` occur anywhere in the string? -/
def containsSeq (pat : Str) : Str → Bool
  | [] => seqAt pat []
  | c :: rest => seqAt pat (c :: rest) ∨ containsSeq pat rest

/-- Model of `this.patterns.mediaOmitted.test(s)`: unanchored case-insensitive
search for one of the alternatives. -/
def mediaOmittedTest (s : Str) : Bool :=
  omittedPhrases.any (fun p => containsSeq p (lower s))

/-! ### JavaScript `Date` model

`new Date(y, m, d, hh, mm, ss)` and the `getFullYear`/`getMonth`/
`getDate` accessors, on the proleptic Gregorian calendar (days counted
from the Unix epoch).  The constructor and the accessors both use the
same clock, so the local-time offset cancels in the round-trip the
source performs; the model therefore uses a zero offset. -/

/-- Day number of the Unix epoch for a civil date (month `1..12`). -/
def daysFromCivil (y m d : Int) : Int :=
  let y' := if m ≤ 2 then y - 1 else y
  let era := y'.ediv 400
  let yoe := y' - era * 400
  let doy := (153 * (m + (if 2 < m then -3 else 9)) + 2).ediv 5 + d - 1
  let doe := yoe * 365 + yoe.ediv 4 - yoe.ediv 100 + doy
  era * 146097 + doe - 719468

/-- Civil date (year, month `1..12`, day) of an epoch day number. -/
def civilFromDays (z : Int) : Int × Int × Int :=
  let z' := z + 719468
  let era := z'.ediv 146097
  let doe := z' - era * 146097
  let yoe := (doe - doe.ediv 1460 + doe.ediv 36524 - doe.ediv 146096).ediv 365
  let y := yoe + era * 400
  let doy := doe - (365 * yoe + yoe.ediv 4 - yoe.ediv 100)
  let mp := (5 * doy + 2).ediv 153
  let d := doy - (153 * mp + 2).ediv 5 + 1
  let m := mp + (if mp < 10 then 3 else -9)
  (if m ≤ 2 then y + 1 else y, m, d)

/-- Model of `new Date(year, monthIndex, day, hh, mm, ss).getTime()`:
time value in milliseconds, `none` for an invalid date (`NaN`).
Includes the constructor's mapping of years `0..99` to `1900..1999`,
month-index normalization into the year, and the ±8.64e15 ms clip. -/
def mkTimeValue (year mon day hh mm ss : Int) : Option Int :=
  let yr := if 0 ≤ year ∧ year ≤ 99 then 1900 + year else year
  let ym := yr * 12 + mon
  let y := ym.ediv 12
  let mn := ym.emod 12
  let days := daysFromCivil y (mn + 1) 1 + (day - 1)
  let t := days * 86400000 + hh * 3600000 + mm * 60000 + ss * 1000
  if t.natAbs ≤ 8640000000000000 then some t else none

/-- Model of `date.getFullYear()`. -/
def getFullYear (t : Int) : Int := (civilFromDays (t.ediv 86400000)).1

/-- Model of `date.getMonth()` (0-based month index). -/
def getMonthIdx (t : Int) : Int := (civilFromDays (t.ediv 86400000)).2.1 - 1

/-- Model of `date.getDate()` (day of month). -/
def getDate (t : Int) : Int := (civilFromDays (t.ediv 86400000)).2.2

/-- Model of `date.getHours()`. -/
def getHours (t : Int) : Int := (t.emod 86400000).ediv 3600000

/-- Model of `date.getMinutes()`. -/
def getMinutes (t : Int) : Int := ((t.emod 86400000).emod 3600000).ediv 60000

/-- Model of `date.getSeconds()`. -/
def getSeconds (t : Int) : Int := ((t.emod 86400000).emod 3600000).emod 60000 |>.ediv 1000

/-! ### `MessageParser.parseDate` -/

/-- Numeric value of a digit string. -/
def digitsVal (ds : Str) : Nat := ds.foldl (fun a c => a * 10 + (c.toNat - 48)) 0

/-- Model of `parseInt(s, 10)`: skip leading whitespace, optional sign, then the
maximal digit prefix; `none` models `NaN`. -/
def jsParseInt (s : Str) : Option Int :=
  let t := s.dropWhile isJsSpace
  let core : Str → Option Nat := fun r =>
    let ds := r.takeWhile isDigitCh
    if ds = [] then none else some (digitsVal ds)
  match t with
  | '-' :: r => (core r).map (fun n => -(n : Int))
  | '+' :: r => (core r).map (fun n => (n : Int))
  | _ => (core t).map (fun n => (n : Int))

/-- The components `parseDate` extracts and adjusts before calling
`new Date`: day, month, year (2-digit years mapped to 1950–2049),
hours (after AM/PM conversion), minutes, seconds. -/
structure DateComps where
  day : Int
  month : Int
  year : Int
  hours : Int
  minutes : Int
  seconds : Int
deriving DecidableEq, Repr

/-- Component extraction of `MessageParser.parseDate`
(`messageParser.js` lines 24–50).  A `parseInt` that returns `NaN`
makes the constructed `Date` invalid, which the source's `isNaN` check
turns into `null`; that path is modelled by returning `none` here. -/
def parseDateComps (dateStr timeStr : Str) : Option DateComps :=
  let dateParts := splitSeps isSepCh dateStr
  match timeSearch timeStr with
  | none => none
  | some (hS, mS, secS, perS) =>
    if dateParts.length < 3 then none
    else
      match jsParseInt (dateParts.getD 0 []), jsParseInt (dateParts.getD 1 []),
            jsParseInt (dateParts.getD 2 []) with
      | some day, some month, some year0 =>
        let year := if year0 < 100 then
            (if year0 < 50 then year0 + 2000 else year0 + 1900) else year0
        let hours0 : Int := (digitsVal hS : Nat)
        let minutes : Int := (digitsVal mS : Nat)
        let seconds : Int := match secS with
          | some ss => (digitsVal ss : Nat)
          | none => 0
        let hours := match perS with
          | some p =>
            if p = str "PM" ∧ ¬ hours0 = 12 then hours0 + 12
            else if p = str "AM" ∧ hours0 = 12 then 0
            else hours0
          | none => hours0
        some ⟨day, month, year, hours, minutes, seconds⟩
      | _, _, _ => none

/-- Model of `MessageParser.parseDate` (`messageParser.js` lines 24–66):
construct the instant, then reject it unless the re-derived
year/month/day match the parsed components. -/
def parseDate (dateStr timeStr : Str) : Option Int :=
  match parseDateComps dateStr timeStr with
  | none => none
  | some c =>
    match mkTimeValue c.year (c.month - 1) c.day c.hours c.minutes c.seconds with
    | none => none
    | some t =>
      if getFullYear t = c.year ∧ getMonthIdx t = c.month - 1 ∧ getDate t = c.day
      then some t else none

/-! ### `MessageParser.getMediaType` and `extractMediaInfo` -/

/-- The extension table of `MessageParser.getMediaType`. -/
def mediaTypeTable : List (Str × Str) :=
  [(str "jpg", str "image"), (str "jpeg", str "image"), (str "png", str "image"),
   (str "gif", str "image"), (str "webp", str "image"),
   (str "mp4", str "video"), (str "3gp", str "video"), (str "mov", str "video"),
   (str "avi", str "video"), (str "mkv", str "video"), (str "webm", str "video"),
   (str "opus", str "audio"), (str "mp3", str "audio"), (str "aac", str "audio"),
   (str "m4a", str "audio"), (str "wav", str "audio"),
   (str "pdf", str "document"), (str "doc", str "document"), (str "docx", str "document"),
   (str "xls", str "document"), (str "xlsx", str "document"), (str "ppt", str "document"),
   (str "pptx", str "document"), (str "txt", str "document"),
   (str "vcf", str "contact")]

/-- Model of `MessageParser.getMediaType` (`messageParser.js` lines 119–139). -/
def getMediaType (filename : Str) : Str :=
  if filename = [] then str "omitted"
  else
    let ext := lower ((splitOnCh '.' filename).getLastD [])
    match (mediaTypeTable.find? (fun p => p.1 = ext)).map (fun p => p.2) with
    | some t => t
    | none => str "file"

/-- The record returned by `extractMediaInfo`.  `type = none` models the
JavaScript `null`. -/
structure MediaInfo where
  hasMedia : Bool
  filename : Option Str
  type : Option Str
  text : Str
deriving DecidableEq, Repr

/-- The omitted-media result of `extractMediaInfo` (lines 99–106). -/
def omittedInfo (text : Str) : MediaInfo :=
  { hasMedia := true, filename := none, type := some (str "omitted"), text := text }

/-- The no-media result of `extractMediaInfo` (lines 108–113). -/
def noMediaInfo (text : Str) : MediaInfo :=
  { hasMedia := false, filename := none, type := none, text := text }

/-- Model of `MessageParser.extractMediaInfo` (`messageParser.js` lines 71–114):
(a) explicit `<attached: NAME>` marker, else (b) leading filename with a
known media extension, else (c) omitted-media phrase, else (d) no
media. -/
def extractMediaInfo (text : Str) : MediaInfo :=
  match attachSearch [] text with
  | some (pre, cap, post) =>
    let filename := trim cap
    { hasMedia := true, filename := some filename,
      type := some (getMediaType filename), text := trim (pre ++ post) }
  | none =>
    match filenameCap text with
    | some fn =>
      if mediaExtTest fn then
        { hasMedia := true, filename := some fn,
          type := some (getMediaType fn), text := trim (text.drop fn.length) }
      else if mediaOmittedTest text then omittedInfo text
      else noMediaInfo text
    | none =>
      if mediaOmittedTest text then omittedInfo text
      else noMediaInfo text

/-! ### `MessageParser.parseLine` and `parse` -/

/-- The failure reason `'Invalid date format'`. -/
def invalidDateReason : Str := str "Invalid date format"

/-- The failure reason `'No matching pattern'`. -/
def noPatternReason : Str := str "No matching pattern"

/-- A successfully parsed chat message. -/
structure Message where
  date : Int
  sender : Str
  text : Str
  isSystem : Bool
  hasMedia : Bool
  mediaType : Option Str
  mediaFilename : Option Str
  raw : Str
deriving DecidableEq, Repr

/-- A failed-line record as pushed onto `this.failedLines`. -/
structure FailedLine where
  lineNumber : Nat
  content : Str
  reason : Str
deriving DecidableEq, Repr

/-- The union returned by `parseLine` for a non-blank line. -/
inductive LineResult where
  | msg (m : Message)
  | failed (f : FailedLine)
deriving DecidableEq, Repr

/-- Model of `MessageParser.parseLine` (`messageParser.js` lines 144–216).
`none` corresponds to the `null` returned for a blank line. -/
def parseLine (line0 : Str) (lineNumber : Nat) : Option LineResult :=
  let line := trim line0
  if line = [] then none
  else
    match bracketMatch line with
    | some (g1, g2, g3, g4) =>
      match parseDate g1 g2 with
      | none => some (.failed ⟨lineNumber, line, invalidDateReason⟩)
      | some d =>
        let mi := extractMediaInfo g4
        some (.msg ⟨d, trim g3, mi.text, false, mi.hasMedia, mi.type, mi.filename, line⟩)
    | none =>
      match dashMatch line with
      | some (g1, g2, g3, g4) =>
        match parseDate g1 g2 with
        | none => some (.failed ⟨lineNumber, line, invalidDateReason⟩)
        | some d =>
          let mi := extractMediaInfo g4
          some (.msg ⟨d, trim g3, mi.text, false, mi.hasMedia, mi.type, mi.filename, line⟩)
      | none =>
        match systemMatch line with
        | some (g1, g2, g3) =>
          if ¬ g3.contains ':' then
            match parseDate g1 g2 with
            | none => some (.failed ⟨lineNumber, line, invalidDateReason⟩)
            | some d => some (.msg ⟨d, str "System", trim g3, true, false, none, none, line⟩)
          else some (.failed ⟨lineNumber, line, noPatternReason⟩)
        | none => some (.failed ⟨lineNumber, line, noPatternReason⟩)

/-- The counters accumulated by `parse`. -/
structure Stats where
  totalLines : Nat
  parsedMessages : Nat
  failedLines : Nat
  emptyLines : Nat
  mediaMessages : Nat
  systemMessages : Nat
deriving DecidableEq, Repr

/-- The aggregate returned by `parse`. -/
structure ParseResult where
  messages : List Message
  failedLines : List FailedLine
  stats : Stats
deriving DecidableEq, Repr

/-- Accumulator of the per-line loop of `parse`: the `messages` array,
the `this.failedLines` array, and the `stats` counters other than
`totalLines`. -/
structure LoopAcc where
  msgs : List Message
  fls : List FailedLine
  parsedN : Nat
  failedN : Nat
  emptyN : Nat
  mediaN : Nat
  systemN : Nat
deriving DecidableEq, Repr

/-- The per-line loop of `parse` (`messageParser.js` lines 235–265),
processing the line at 1-based index `idx` first. -/
def parseLoop (idx : Nat) : List Str → LoopAcc
  | [] => ⟨[], [], 0, 0, 0, 0, 0⟩
  | l :: rest =>
    let acc := parseLoop (idx + 1) rest
    let line := trim l
    if line = [] then { acc with emptyN := acc.emptyN + 1 }
    else
      match parseLine line idx with
      | none => { acc with emptyN := acc.emptyN + 1 }
      | some (.failed fl) => { acc with fls := fl :: acc.fls, failedN := acc.failedN + 1 }
      | some (.msg m) =>
        { acc with
            msgs := m :: acc.msgs,
            parsedN := acc.parsedN + 1,
            mediaN := acc.mediaN + (if m.hasMedia then 1 else 0),
            systemN := acc.systemN + (if m.isSystem then 1 else 0) }

/-- Model of `MessageParser.parse` (`messageParser.js` lines 221–272), as a pure
function of the content. -/
def parseCore (content : Str) : ParseResult :=
  let lines := splitOnCh '\n' content
  let r := parseLoop 1 lines
  { messages := r.msgs, failedLines := r.fls,
    stats := ⟨lines.length, r.parsedN, r.failedN, r.emptyN, r.mediaN, r.systemN⟩ }

/-- The mutable state of a `MessageParser` instance: the accumulated
`this.failedLines` array. -/
structure MessageParser where
  failedLines : List FailedLine
deriving DecidableEq, Repr

/-- The `parse` method: it resets `this.failedLines = []` before the
loop and pushes every diagnostic of this pass, so the post-state holds
exactly the diagnostics of this call. -/
def MessageParser.parse (_ps : MessageParser) (content : Str) :
    ParseResult × MessageParser :=
  let r := parseCore content
  (r, { failedLines := r.failedLines })

/-- Model of `MessageParser.getFailedLines` (`messageParser.js` lines 277–279). -/
def MessageParser.getFailedLines (ps : MessageParser) : List FailedLine :=
  ps.failedLines

/-! ### `ZipHandler` (`zipHandler.js`)

JavaScript `Map`s are modelled as insertion-ordered association lists.
Blob URLs are abstracted as numbers drawn from a counter threaded
through the resolution functions; the external effects
`URL.createObjectURL` / `URL.revokeObjectURL` (and a hypothetical user
alert) are recorded in an event trace. -/

/-- Model of `Map.prototype.has`. -/
def mapHas (m : List (Str × α)) (k : Str) : Bool := m.any (fun p => p.1 == k)

/-- Model of `Map.prototype.get` (`none` for a missing key). -/
def mapGet (m : List (Str × α)) (k : Str) : Option α :=
  (m.find? (fun p => p.1 == k)).map (fun p => p.2)

/-- Model of `Map.prototype.set`: update in place, or append a new entry. -/
def mapSet (m : List (Str × α)) (k : Str) (v : α) : List (Str × α) :=
  if mapHas m k then m.map (fun p => if p.1 == k then (k, v) else p)
  else m ++ [(k, v)]

/-- Model of `Map.prototype.delete`. -/
def mapDelete (m : List (Str × α)) (k : Str) : List (Str × α) :=
  m.filter (fun p => ! (p.1 == k))

/-- The `LRUCache` of `zipHandler.js` (lines 6–62): a map plus an
explicit access-order list (least recently used first). -/
structure LRUCache where
  maxSize : Nat
  cache : List (Str × Nat)
  accessOrder : List Str
deriving DecidableEq, Repr

/-- Model of `LRUCache.get` (lines 13–21): on a hit, move the key to the
most-recently-used end; on a miss, return `null` untouched. -/
def LRUCache.get (c : LRUCache) (k : Str) : Option Nat × LRUCache :=
  if ¬ mapHas c.cache k then (none, c)
  else
    (mapGet c.cache k,
     { c with accessOrder := (c.accessOrder.filter (fun x => ! (x == k))) ++ [k] })

/-- Model of `LRUCache.set` (lines 23–43).  Returns the new cache and, when the
insertion evicted the least-recently-used entry, that entry (key and
value) so the caller's `onEvict` can run.  The `[]` branch of the
access-order match is unreachable (the access order always lists
exactly the cached keys), where JavaScript would pass `undefined`
through `onEvict`. -/
def LRUCache.set (c : LRUCache) (k : Str) (v : Nat) :
    LRUCache × Option (Str × Option Nat) :=
  if mapHas c.cache k then
    let c1 : LRUCache := { c with cache := mapSet c.cache k v }
    ((c1.get k).2, none)
  else
    let step : LRUCache × Option (Str × Option Nat) :=
      if c.maxSize ≤ c.cache.length then
        match c.accessOrder with
        | lru :: restAO =>
          ({ c with cache := mapDelete c.cache lru, accessOrder := restAO },
           some (lru, mapGet c.cache lru))
        | [] => (c, none)
      else (c, none)
    ({ step.1 with
        cache := step.1.cache ++ [(k, v)],
        accessOrder := step.1.accessOrder ++ [k] },
     step.2)

/-- Model of `LRUCache.clear` (lines 49–57): the `onEvict` callback runs for
every entry; the handler's callback revokes each URL. -/
def LRUCache.clearAll (c : LRUCache) : LRUCache × List (Str × Nat) :=
  ({ c with cache := [], accessOrder := [] }, c.cache)

/-- External effects of media resolution: blob-URL creation and
revocation, and a user-facing alert.  The embedded code never emits
`alert` — `zipHandler.js` contains no alert or warning call. -/
inductive Ev where
  | create (u : Nat)
  | revoke (u : Option Nat)
  | alert
deriving DecidableEq, Repr

/-- The `ZipHandler` state (`zipHandler.js` lines 64–72).  The decoded
transcript text is abstracted as its payload number. -/
structure ZipHandler where
  maxCacheSize : Nat
  urlCache : LRUCache
  mediaFiles : List (Str × Nat)
  chatContent : Option Nat
  chatFilename : Option Str
  isLoaded : Bool
deriving DecidableEq, Repr

/-- Model of `new ZipHandler(options)`: `options.maxCacheSize || 50` (so an
explicit 0 also falls back to 50). -/
def mkZipHandler (maxCacheSize? : Option Nat) : ZipHandler :=
  let m := match maxCacheSize? with
    | some n => if n = 0 then 50 else n
    | none => 50
  { maxCacheSize := m,
    urlCache := { maxSize := m, cache := [], accessOrder := [] },
    mediaFiles := [], chatContent := none, chatFilename := none, isLoaded := false }

/-- Model of `ZipHandler.getMediaURL` (lines 176–200): `null` for an unknown or
empty filename (nothing is recorded anywhere in that case); otherwise a
cache hit returns the cached URL, and a miss creates a blob URL
(`Ev.create`, consuming the counter) and inserts it, the insertion
possibly evicting the least-recently-used URL, which the `onEvict`
callback revokes (`Ev.revoke`) — after the new URL was created. -/
def ZipHandler.getMediaURL (zh : ZipHandler) (ctr : Nat) (filename : Str) :
    Option Nat × ZipHandler × Nat × List Ev :=
  if filename = [] ∨ ¬ mapHas zh.mediaFiles filename then (none, zh, ctr, [])
  else
    let gr := zh.urlCache.get filename
    match gr.1 with
    | some url => (some url, { zh with urlCache := gr.2 }, ctr, [])
    | none =>
      let url := ctr
      let sr := zh.urlCache.set filename url
      let evs := Ev.create url :: (match sr.2 with
        | some (_, u) => [Ev.revoke u]
        | none => [])
      (some url, { zh with urlCache := sr.1 }, ctr + 1, evs)

/-- A sequence of `getMediaURL` calls, accumulating the event trace and
the returned URLs. -/
def resolveSeq (zh : ZipHandler) (ctr : Nat) :
    List Str → ZipHandler × Nat × List Ev × List (Option Nat)
  | [] => (zh, ctr, [], [])
  | f :: fs =>
    let r := zh.getMediaURL ctr f
    let rest := resolveSeq r.2.1 r.2.2.1 fs
    (rest.1, rest.2.1, r.2.2.2 ++ rest.2.2.1, r.1 :: rest.2.2.2)

/-- The record returned by `ZipHandler.getCacheStats` (lines 249–256).
`cacheUtilization` is the float `(cacheSize / maxCacheSize) * 100`,
derived from the two sizes, and carries no further state. -/
structure CacheStats where
  cacheSize : Nat
  maxCacheSize : Nat
  totalMedia : Nat
deriving DecidableEq, Repr

/-- Model of `ZipHandler.getCacheStats`. -/
def ZipHandler.getCacheStats (zh : ZipHandler) : CacheStats :=
  ⟨zh.urlCache.cache.length, zh.maxCacheSize, zh.mediaFiles.length⟩

/-- Model of `ZipHandler.clear` (lines 273–284): revoke every cached URL, then
reset all state. -/
def ZipHandler.clear (zh : ZipHandler) : ZipHandler × List Ev :=
  let cr := zh.urlCache.clearAll
  ({ zh with
      urlCache := cr.1,
      mediaFiles := [],
      chatContent := none,
      chatFilename := none,
      isLoaded := false },
   cr.2.map (fun p => Ev.revoke (some p.2)))

/-- Model of `path.split('/').pop()`: the last path segment (line 102). -/
def lastSeg (path : Str) : Str := (splitOnCh '/' path).getLastD []

/-- Model of `filename.endsWith('.txt')` (line 105). -/
def endsWithTxt (filename : Str) : Bool := (str ".txt").isSuffixOf filename

/-- The extension list of `ZipHandler.isMediaFile` (lines 137–142). -/
def zipMediaExtns : List Str :=
  [str "jpg", str "jpeg", str "png", str "gif", str "webp",
   str "mp4", str "3gp", str "mov", str "avi", str "mkv", str "webm",
   str "opus", str "mp3", str "aac", str "m4a", str "wav",
   str "pdf", str "doc", str "docx", str "xls", str "xlsx",
   str "ppt", str "pptx", str "txt", str "vcf"]

/-- Model of `ZipHandler.isMediaFile` (lines 134–144). -/
def isMediaFile (filename : Str) : Bool :=
  if filename = [] then false
  else zipMediaExtns.contains (lower ((splitOnCh '.' filename).getLastD []))

/-- The transcript-related state of the handler during `loadZip`'s
entry loop (lines 101–114): `this.chatContent` (a JavaScript string or
`null`, so its falsy values are `none` and the empty string),
`this.chatFilename`, and the stored media payloads.  Payload bytes are
modelled as `Str`; decoding a payload with `TextDecoder('utf-8')` is
the identity on this representation. -/
structure LoadState where
  chatContent : Option Str
  chatFilename : Option Str
  mediaFiles : List (Str × Str)
deriving DecidableEq, Repr

/-- JavaScript falsiness of `this.chatContent`: `!x` is true for `null`
and for the empty string. -/
def chatFalsy : Option Str → Bool
  | none => true
  | some s => s.isEmpty

/-- The load state right after `clear()`, when the entry loop starts. -/
def initialLoadState : LoadState := ⟨none, none, []⟩

/-- One iteration of the entry loop of `ZipHandler.loadZip`
(lines 101–114): an entry named `….txt` becomes the transcript while
`!this.chatContent` holds (so also when the current transcript decoded
to the empty string), any other entry with a media extension is stored
in `mediaFiles`. -/
def processEntry (st : LoadState) (e : Str × Str) : LoadState :=
  let filename := lastSeg e.1
  if endsWithTxt filename = true ∧ chatFalsy st.chatContent = true then
    { st with chatContent := some e.2, chatFilename := some filename }
  else if isMediaFile filename = true then
    { st with mediaFiles := mapSet st.mediaFiles filename e.2 }
  else st

/-- The entry loop of `ZipHandler.loadZip`, run after `clear()` over the
decompressed archive's (path, payload) entries in archive order. -/
def loadEntries (st : LoadState) (entries : List (Str × Str)) : LoadState :=
  entries.foldl processEntry st

/-! ### Live display handles along a trace -/

/-- Fold step: which blob URLs are live (created, not yet revoked) after
an event. -/
def applyEv (l : List Nat) : Ev → List Nat
  | .create u => u :: l
  | .revoke (some u) => l.erase u
  | .revoke none => l
  | .alert => l

/-- The live blob URLs after a trace. -/
def live (evs : List Ev) : List Nat := evs.foldl applyEv []

/-- How many alert events a trace holds. -/
def alertCount (evs : List Ev) : Nat :=
  evs.countP (fun e => match e with | .alert => true | _ => false)

/-- A sequence of `parse` calls against one parser instance (the call
history preceding a parse of interest). -/
def runParses (ps : MessageParser) (cs : List Str) : MessageParser :=
  cs.foldl (fun s c => (s.parse c).2) ps

/-- A handler loaded with two photos (the missing-file test fixture of
the repository's `zipHandler` suite). -/
def zhPhotos : ZipHandler :=
  { mkZipHandler (some 3) with
      mediaFiles := [(str "photo1.jpg", 1), (str "photo2.jpg", 2)] }

/-- A capacity-1 handler knowing two files. -/
def zhCap1 : ZipHandler :=
  { mkZipHandler (some 1) with
      mediaFiles := [(str "f1.jpg", 1), (str "f2.jpg", 2)] }

/-- A capacity-3 handler knowing four files (the LRU test fixture). -/
def zhFour : ZipHandler :=
  { mkZipHandler (some 3) with
      mediaFiles := [(str "file1.jpg", 1), (str "file2.jpg", 2),
                     (str "file3.jpg", 3), (str "file4.jpg", 4)] }

/-- A list of 10005 pairwise-distinct filenames, none of them present in any
handler's media table below. -/
def missingNames : List Str := (List.range 10005).map (fun i => List.replicate (i + 1) 'a')

/-- The keys of a map model are pairwise distinct. -/
def keysNodup {α : Type} (m : List (Str × α)) : Prop :=
  (m.map (fun p => p.1)).Nodup

/-- The cache invariant tying a handler state to the trace that
produced it: the live blob URLs are exactly the cached values, the
access order lists exactly the cached keys (each once), and the cache
never holds more than `maxSize` entries. -/
structure CacheInv (zh : ZipHandler) (evs : List Ev) : Prop where
  liveVals : (live evs).Perm (zh.urlCache.cache.map (fun p => p.2))
  aoNodup : zh.urlCache.accessOrder.Nodup
  aoKeys : zh.urlCache.accessOrder.Perm (zh.urlCache.cache.map (fun p => p.1))
  sizeLe : zh.urlCache.cache.length ≤ zh.urlCache.maxSize
  maxEq : zh.urlCache.maxSize = zh.maxCacheSize
  maxPos : 1 ≤ zh.urlCache.maxSize

/-- A freshly constructed handler whose media table has been populated
(the state in which `getMediaURL` is exercised). -/
def freshHandler (cap : Nat) (media : List (Str × Nat)) : ZipHandler :=
  { mkZipHandler (some cap) with mediaFiles := media }

/-! ## Theorems settling the claims -/

/-- Counting lemma for the parse loop: every line is counted exactly
once as parsed, failed or empty, and the result arrays grow in lockstep
with their counters. -/
theorem parseLoop_counts (idx : Nat) (lines : List Str) :
    (parseLoop idx lines).parsedN + (parseLoop idx lines).failedN
        + (parseLoop idx lines).emptyN = lines.length
  ∧ (parseLoop idx lines).msgs.length = (parseLoop idx lines).parsedN
  ∧ (parseLoop idx lines).fls.length = (parseLoop idx lines).failedN := by
  induction lines generalizing idx with
  | nil => simp [parseLoop]
  | cons l rest ih =>
    obtain ⟨ih1, ih2, ih3⟩ := ih (idx + 1)
    simp only [parseLoop]
    by_cases h : trim l = []
    · refine ⟨?_, ?_, ?_⟩ <;> simp [h] <;> omega
    · cases hp : parseLine (trim l) idx with
      | none => refine ⟨?_, ?_, ?_⟩ <;> simp [h, hp] <;> omega
      | some lr =>
        cases lr with
        | failed fl => refine ⟨?_, ?_, ?_⟩ <;> simp [h, hp] <;> omega
        | msg m => refine ⟨?_, ?_, ?_⟩ <;> simp [h, hp] <;> omega

/-- C1: for every input, `MessageParser.parse` returns counters with
`parsedMessages + failedLines + emptyLines = totalLines`, `totalLines`
the number of newline-separated lines of the input, the messages array
exactly `parsedMessages` long and the diagnostics array exactly
`failedLines` long — every non-blank line becomes exactly one message
or one diagnostic, blank lines neither. -/
theorem C1_parse_invariant (ps : MessageParser) (content : Str) :
    ((ps.parse content).1.stats.parsedMessages + (ps.parse content).1.stats.failedLines
        + (ps.parse content).1.stats.emptyLines = (ps.parse content).1.stats.totalLines)
  ∧ (ps.parse content).1.stats.totalLines = (splitOnCh '\n' content).length
  ∧ (ps.parse content).1.messages.length = (ps.parse content).1.stats.parsedMessages
  ∧ (ps.parse content).1.failedLines.length = (ps.parse content).1.stats.failedLines := by
  have h := parseLoop_counts 1 (splitOnCh '\n' content)
  exact ⟨h.1, rfl, h.2.1, h.2.2⟩

/-- C10: `parse` resets the accumulated failed-line state first, so its
result is a function of the content alone — equal content yields equal
results after any prior call histories — and `getFailedLines()`
afterwards returns exactly the diagnostics of the most recent parse. -/
theorem C10_parse_resets_state (hist hist' : List Str) (ps ps' : MessageParser)
    (content : Str) :
    ((runParses ps hist).parse content) = ((runParses ps' hist').parse content)
  ∧ ((runParses ps hist).parse content).2.getFailedLines
      = ((runParses ps hist).parse content).1.failedLines :=
  ⟨rfl, rfl⟩

/-- C2 (against the repository's own test suite): resolving a filename
absent from the archive returns `null` but records nothing — the
handler state after the call is bit-for-bit the state before it, no
effect is emitted, and since resolving one and resolving two distinct
absent names leave identical states, no function of the handler state
can report the missing count the tests (`stats.missingFiles`,
`handler.missingFiles`) demand. -/
theorem C2_missing_not_recorded :
    (zhPhotos.getMediaURL 0 (str "missing.jpg")).1 = none
  ∧ (zhPhotos.getMediaURL 0 (str "missing.jpg")).2.1 = zhPhotos
  ∧ (zhPhotos.getMediaURL 0 (str "missing.jpg")).2.2.1 = 0
  ∧ (zhPhotos.getMediaURL 0 (str "missing.jpg")).2.2.2 = []
  ∧ ((zhPhotos.getMediaURL 0 (str "missing.jpg")).2.1).getCacheStats = zhPhotos.getCacheStats
  ∧ (resolveSeq zhPhotos 0 [str "missing1.jpg"]).1
      = (resolveSeq zhPhotos 0 [str "missing1.jpg", str "missing2.jpg"]).1
  ∧ ¬ ∃ missingCount : ZipHandler → Nat,
        missingCount (resolveSeq zhPhotos 0 [str "missing1.jpg"]).1 = 1 ∧
        missingCount (resolveSeq zhPhotos 0 [str "missing1.jpg", str "missing2.jpg"]).1 = 2 := by
  refine ⟨by decide, by decide, by decide, by decide, by decide, by decide, ?_⟩
  rintro ⟨f, hf1, hf2⟩
  have hes : (resolveSeq zhPhotos 0 [str "missing1.jpg"]).1
      = (resolveSeq zhPhotos 0 [str "missing1.jpg", str "missing2.jpg"]).1 := by decide
  rw [hes] at hf1
  omega

/-- Resolving names that are all absent from the media table is a
complete no-op: state and counter unchanged, no events, all-`null`
results. -/
theorem resolveSeq_missing (zh : ZipHandler) (ctr : Nat) (names : List Str)
    (h : ∀ n ∈ names, n = [] ∨ mapHas zh.mediaFiles n = false) :
    resolveSeq zh ctr names = (zh, ctr, [], names.map (fun _ => (none : Option Nat))) := by
  induction names with
  | nil => rfl
  | cons f fs ih =>
    have hf := h f (by simp)
    have hstep : zh.getMediaURL ctr f = (none, zh, ctr, []) := by
      unfold ZipHandler.getMediaURL
      rw [if_pos]
      rcases hf with h' | h'
      · exact Or.inl h'
      · exact Or.inr (by simp [h'])
    have ihh := ih (fun n hn => h n (by simp [hn]))
    simp [resolveSeq, hstep, ihh]

/-- C3 (against the repository's own test suite): 10005 distinct absent
filenames resolved against one handler emit no events at all — in
particular zero alert signals, where the tests demand exactly one
(`window.alert` once, `console.warn` at the 10001st miss).  The code
has no missing-file set and no threshold. -/
theorem C3_no_alert_signal :
    missingNames.length = 10005
  ∧ missingNames.Nodup
  ∧ (resolveSeq (mkZipHandler (some 3)) 0 missingNames).2.2.1 = []
  ∧ alertCount (resolveSeq (mkZipHandler (some 3)) 0 missingNames).2.2.1 = 0
  ∧ (resolveSeq (mkZipHandler (some 3)) 0 missingNames).2.2.2
      = missingNames.map (fun _ => none)
  ∧ (resolveSeq (mkZipHandler (some 3)) 0 missingNames).1 = mkZipHandler (some 3) := by
  have hrun := resolveSeq_missing (mkZipHandler (some 3)) 0 missingNames
    (fun n _ => Or.inr rfl)
  have hinj : Function.Injective (fun i : Nat => (List.replicate (i + 1) 'a' : Str)) := by
    intro a b hab
    have := congrArg List.length hab
    simpa using this
  refine ⟨by simp [missingNames], ?_, ?_, ?_, ?_, ?_⟩
  · exact (List.nodup_range _).map hinj
  · rw [hrun]
  · rw [hrun]; rfl
  · rw [hrun]
  · rw [hrun]

/-- C5: with capacity 3 and `file1..file4` resolved in that order,
resolving `file4` evicts exactly `file1`, revoking its handle (URL 0)
exactly once in the whole trace; `file1` is gone from the cache while
`file4` is cached, and re-resolving `file1` afterwards creates a fresh
handle (a new URL and a `create` event), not a cache hit. -/
theorem C5_lru_eviction :
    (resolveSeq zhFour 0 [str "file1.jpg", str "file2.jpg", str "file3.jpg", str "file4.jpg"]).2.2.1
      = [Ev.create 0, Ev.create 1, Ev.create 2, Ev.create 3, Ev.revoke (some 0)]
  ∧ ((resolveSeq zhFour 0 [str "file1.jpg", str "file2.jpg", str "file3.jpg", str "file4.jpg"]).2.2.1.countP
        (fun e => decide (e = Ev.revoke (some 0)))) = 1
  ∧ mapHas (resolveSeq zhFour 0 [str "file1.jpg", str "file2.jpg", str "file3.jpg", str "file4.jpg"]).1.urlCache.cache
        (str "file1.jpg") = false
  ∧ mapHas (resolveSeq zhFour 0 [str "file1.jpg", str "file2.jpg", str "file3.jpg", str "file4.jpg"]).1.urlCache.cache
        (str "file4.jpg") = true
  ∧ ((resolveSeq zhFour 0 [str "file1.jpg", str "file2.jpg", str "file3.jpg", str "file4.jpg"]).1.getMediaURL
        (resolveSeq zhFour 0 [str "file1.jpg", str "file2.jpg", str "file3.jpg", str "file4.jpg"]).2.1
        (str "file1.jpg")).1 = some 4
  ∧ ((resolveSeq zhFour 0 [str "file1.jpg", str "file2.jpg", str "file3.jpg", str "file4.jpg"]).1.getMediaURL
        (resolveSeq zhFour 0 [str "file1.jpg", str "file2.jpg", str "file3.jpg", str "file4.jpg"]).2.1
        (str "file1.jpg")).2.2.2 = [Ev.create 4, Ev.revoke (some 1)] := by
  decide

/-- C4, counterexample: with capacity 1, resolving a second file
produces the trace `create 0, create 1, revoke 0` — the new handle is
created before the evicted one is released, and right after the second
creation two handles are live, exceeding the capacity of 1. -/
theorem C4_counterexample :
    (resolveSeq zhCap1 0 [str "f1.jpg", str "f2.jpg"]).2.2.1
      = [Ev.create 0, Ev.create 1, Ev.revoke (some 0)]
  ∧ (live ((resolveSeq zhCap1 0 [str "f1.jpg", str "f2.jpg"]).2.2.1.take 2)).length = 2
  ∧ zhCap1.maxCacheSize = 1 := by
  decide

/-- C6, counterexample: minutes `99` do not make `parseDate` fail — the
out-of-range minutes roll into the hour and `parseDate "1/1/2024"
"10:99"` returns the instant 2024-01-01 11:39:00 instead of `null`
(only year/month/day are re-derived and compared). -/
theorem C6_counterexample :
    parseDate (str "1/1/2024") (str "10:99") = some 1704109140000
  ∧ ¬ parseDate (str "1/1/2024") (str "10:99") = none
  ∧ getFullYear 1704109140000 = 2024
  ∧ getMonthIdx 1704109140000 = 0
  ∧ getDate 1704109140000 = 1
  ∧ getHours 1704109140000 = 11
  ∧ getMinutes 1704109140000 = 39 := by
  decide

/-- C8, counterexample: a body equal to the bare phrase
`"Media omitted"` is *not* marked as omitted media — the first
alternative of the omitted-media regex is `<Media omitted>` including
the angle brackets, so the bare phrase matches nothing and the body is
classified as having no media. -/
theorem C8_counterexample :
    extractMediaInfo (str "Media omitted") = noMediaInfo (str "Media omitted")
  ∧ (extractMediaInfo (str "Media omitted")).hasMedia = false
  ∧ ¬ (extractMediaInfo (str "Media omitted")).type = some (str "omitted")
  ∧ mediaOmittedTest (str "Media omitted") = false
  ∧ mediaOmittedTest (str "<Media omitted>") = true := by
  decide

/-- C9, counterexample: after `a/chat.txt` (non-empty) became the
transcript, the further transcript-like entry `b/other.txt` is *not*
ignored — `txt` is in the media-extension list, so it is retained as a
media entry; and when the first `.txt` decodes to the empty string, the
later `.txt` even *replaces* the transcript (the falsy
`!this.chatContent` check), instead of being ignored. -/
theorem C9_counterexample :
    (loadEntries initialLoadState
        [(str "a/chat.txt", str "Chat content"), (str "b/other.txt", str "Other")]).chatFilename
      = some (str "chat.txt")
  ∧ mapHas (loadEntries initialLoadState
        [(str "a/chat.txt", str "Chat content"), (str "b/other.txt", str "Other")]).mediaFiles
        (str "other.txt") = true
  ∧ (loadEntries initialLoadState
        [(str "a/chat.txt", str ""), (str "b/other.txt", str "Other")]).chatFilename
      = some (str "other.txt")
  ∧ mapHas (loadEntries initialLoadState
        [(str "a/chat.txt", str ""), (str "b/other.txt", str "Other")]).mediaFiles
        (str "other.txt") = false := by
  decide

/-- C6, amended: whenever `parseDate` succeeds, the year, month and day
re-derived from the returned instant equal the parsed (and adjusted)
date components — date-component rollover is always rejected.  (Time
components are not validated; as the counterexample shows they may roll
forward inside the day.) -/
theorem C6_amended (ds ts : Str) (t : Int) (h : parseDate ds ts = some t) :
    ∃ c : DateComps, parseDateComps ds ts = some c ∧
      getFullYear t = c.year ∧ getMonthIdx t = c.month - 1 ∧ getDate t = c.day := by
  unfold parseDate at h
  cases hc : parseDateComps ds ts with
  | none => simp only [hc] at h; exact Option.noConfusion h
  | some c =>
    simp only [hc] at h
    cases hm : mkTimeValue c.year (c.month - 1) c.day c.hours c.minutes c.seconds with
    | none => simp only [hm] at h; exact Option.noConfusion h
    | some t' =>
      simp only [hm] at h
      by_cases hcond : getFullYear t' = c.year ∧ getMonthIdx t' = c.month - 1 ∧ getDate t' = c.day
      · rw [if_pos hcond] at h
        obtain rfl : t' = t := by simpa using h
        exact ⟨c, rfl, hcond.1, hcond.2.1, hcond.2.2⟩
      · rw [if_neg hcond] at h
        exact absurd h (by simp)

/-- Witness for C6, amended: `parseDate "31/12/2023" "23:59:30"`
succeeds and round-trips its date components. -/
theorem C6_amended_witness :
    parseDate (str "31/12/2023") (str "23:59:30") = some 1704067170000
  ∧ ∃ c : DateComps, parseDateComps (str "31/12/2023") (str "23:59:30") = some c ∧
      getFullYear 1704067170000 = c.year ∧ getMonthIdx 1704067170000 = c.month - 1 ∧
      getDate 1704067170000 = c.day :=
  ⟨by decide, C6_amended _ _ _ (by decide)⟩

/-- C7: a non-blank line that structurally matches the bracketed
pattern — or misses it and structurally matches the dashed pattern —
but whose date/time fails normalization, is settled right there as an
`Invalid date format` diagnostic: it is never retried against a
lower-precedence pattern nor demoted to `No matching pattern`. -/
theorem C7_invalid_date_not_demoted (line : Str) (n : Nat) (d t s b : Str)
    (hne : ¬ trim line = [])
    (hm : bracketMatch (trim line) = some (d, t, s, b) ∨
          (bracketMatch (trim line) = none ∧ dashMatch (trim line) = some (d, t, s, b)))
    (hd : parseDate d t = none) :
    parseLine line n = some (.failed ⟨n, trim line, invalidDateReason⟩) := by
  simp only [parseLine]
  rcases hm with hb | ⟨hbn, hda⟩
  · simp only [if_neg hne, hb, hd]
  · simp only [if_neg hne, hbn, hda, hd]

/-- Witness for C7: the bracket-structured line with day 32 / month 13
becomes an `Invalid date format` diagnostic. -/
theorem C7_witness :
    ¬ trim (str "[32/13/2024, 10:02 AM] C: x") = []
  ∧ bracketMatch (trim (str "[32/13/2024, 10:02 AM] C: x"))
      = some (str "32/13/2024", str "10:02 AM", str "C", str "x")
  ∧ parseDate (str "32/13/2024") (str "10:02 AM") = none
  ∧ parseLine (str "[32/13/2024, 10:02 AM] C: x") 5
      = some (.failed ⟨5, trim (str "[32/13/2024, 10:02 AM] C: x"), invalidDateReason⟩) :=
  ⟨by decide, by decide, by decide,
    C7_invalid_date_not_demoted (str "[32/13/2024, 10:02 AM] C: x") 5
      (str "32/13/2024") (str "10:02 AM") (str "C") (str "x")
      (by decide) (Or.inl (by decide)) (by decide)⟩

/-- C8, amended: media extraction applies exactly one of (a) explicit
`<attached: NAME>` marker, (b) leading filename with a known extension,
(c) omitted-media phrase, (d) no media, evaluated in that order — where
the omitted-media phrases are `<Media omitted>` *with the angle
brackets*, `image omitted`, `video omitted`, `audio omitted`,
`document omitted`, `contact card omitted` and the maps-location link,
matched case-insensitively anywhere in the body. -/
theorem C8_amended (tx : Str) :
    (∀ pre cap post, attachSearch [] tx = some (pre, cap, post) →
      extractMediaInfo tx =
        { hasMedia := true, filename := some (trim cap),
          type := some (getMediaType (trim cap)), text := trim (pre ++ post) })
  ∧ (attachSearch [] tx = none → ∀ fn, filenameCap tx = some fn →
      mediaExtTest fn = true →
      extractMediaInfo tx =
        { hasMedia := true, filename := some fn,
          type := some (getMediaType fn), text := trim (tx.drop fn.length) })
  ∧ (attachSearch [] tx = none →
      (filenameCap tx = none ∨ ∃ fn, filenameCap tx = some fn ∧ mediaExtTest fn = false) →
      mediaOmittedTest tx = true → extractMediaInfo tx = omittedInfo tx)
  ∧ (attachSearch [] tx = none →
      (filenameCap tx = none ∨ ∃ fn, filenameCap tx = some fn ∧ mediaExtTest fn = false) →
      mediaOmittedTest tx = false → extractMediaInfo tx = noMediaInfo tx) := by
  refine ⟨?_, ?_, ?_, ?_⟩
  · intro pre cap post ha
    simp only [extractMediaInfo, ha]
  · intro ha fn hf hext
    simp only [extractMediaInfo, ha, hf, hext, if_true]
  · intro ha hfn hom
    rcases hfn with hn | ⟨fn, hf, hext⟩
    · simp only [extractMediaInfo, ha, hn, hom, if_true]
    · simp only [extractMediaInfo, ha, hf, hext, hom, if_true, Bool.false_eq_true,
        if_false]
  · intro ha hfn hom
    rcases hfn with hn | ⟨fn, hf, hext⟩
    · simp only [extractMediaInfo, ha, hn, hom, Bool.false_eq_true, if_false]
    · simp only [extractMediaInfo, ha, hf, hext, hom, Bool.false_eq_true, if_false]

/-- Witness for C8, amended: the bracketed phrase `<Media omitted>`
reaches branch (c) and is marked omitted with no filename. -/
theorem C8_amended_witness :
    attachSearch [] (str "<Media omitted>") = none
  ∧ filenameCap (str "<Media omitted>") = none
  ∧ mediaOmittedTest (str "<Media omitted>") = true
  ∧ extractMediaInfo (str "<Media omitted>") = omittedInfo (str "<Media omitted>") :=
  ⟨by decide, by decide, by decide,
    (C8_amended (str "<Media omitted>")).2.2.1 (by decide) (Or.inl (by decide)) (by decide)⟩

/-- Splitting never produces an empty field list. -/
theorem splitSeps_ne_nil (p : Char → Bool) (s : Str) : splitSeps p s ≠ [] := by
  induction s with
  | nil => simp [splitSeps]
  | cons c rest ih =>
    simp only [splitSeps]
    split
    · simp
    · cases h : splitSeps p rest with
      | nil => simp
      | cons g gs => simp

/-- Splitting distributes over a separator occurrence. -/
theorem splitSeps_append (p : Char → Bool) (xs ys : Str) (c : Char) (hc : p c = true) :
    splitSeps p (xs ++ c :: ys) = splitSeps p xs ++ splitSeps p ys := by
  induction xs with
  | nil => simp [splitSeps, hc]
  | cons x xs ih =>
    by_cases hx : p x
    · simp [splitSeps, hx, ih]
    · cases hsx : splitSeps p xs with
      | nil => exact absurd hsx (splitSeps_ne_nil p xs)
      | cons g gs =>
        simp only [List.cons_append, splitSeps, hx, Bool.false_eq_true, if_false,
          List.append_eq, ih, hsx]

/-- A chunk without separators splits into itself alone. -/
theorem splitSeps_no_sep (p : Char → Bool) (ys : Str) (h : ∀ c ∈ ys, p c = false) :
    splitSeps p ys = [ys] := by
  induction ys with
  | nil => rfl
  | cons c cs ih =>
    have hc := h c (by simp)
    simp only [splitSeps, hc, Bool.false_eq_true, if_false]
    rw [ih (fun c' hc' => h c' (by simp [hc']))]

/-- A filename ending in `.txt` passes `isMediaFile` — `txt` is in the
handler's media-extension list. -/
theorem endsWithTxt_isMediaFile (s : Str) (h : endsWithTxt s = true) :
    isMediaFile s = true := by
  have hsuf : (str ".txt") <:+ s := List.isSuffixOf_iff_suffix.mp h
  obtain ⟨pre, rfl⟩ := hsuf
  unfold isMediaFile
  rw [if_neg (fun heq => by
    have h2 := (List.append_eq_nil.mp heq).2
    exact absurd h2 (by decide))]
  unfold splitOnCh
  rw [show pre ++ str ".txt" = pre ++ '.' :: str "txt" from rfl]
  rw [splitSeps_append _ pre (str "txt") '.' (by decide)]
  rw [splitSeps_no_sep _ (str "txt") (by decide)]
  rw [List.getLastD_concat]
  decide

/-- Lemma: `Map.set` leaves the new key present. -/
theorem mapHas_mapSet_self {α : Type} (m : List (Str × α)) (k : Str) (v : α) :
    mapHas (mapSet m k v) k = true := by
  unfold mapSet
  by_cases h : mapHas m k = true
  · simp only [h, if_true]
    unfold mapHas at h ⊢
    rw [List.any_map, List.any_eq_true]
    rw [List.any_eq_true] at h
    obtain ⟨p, hp, hpk⟩ := h
    refine ⟨p, hp, ?_⟩
    simp only [Function.comp_apply, hpk, if_true]
    exact beq_self_eq_true k
  · simp only [h, Bool.false_eq_true, if_false]
    unfold mapHas
    rw [List.any_append]
    simp

/-- Lemma: `Map.set` never removes an existing key. -/
theorem mapHas_mapSet_mono {α : Type} (m : List (Str × α)) (k k' : Str) (v : α)
    (h : mapHas m k = true) : mapHas (mapSet m k' v) k = true := by
  unfold mapSet
  by_cases h' : mapHas m k' = true
  · simp only [h', if_true]
    unfold mapHas at h ⊢
    rw [List.any_map, List.any_eq_true]
    rw [List.any_eq_true] at h
    obtain ⟨p, hp, hpk⟩ := h
    refine ⟨p, hp, ?_⟩
    by_cases hk' : (p.1 == k') = true
    · simp only [Function.comp_apply, hk', if_true]
      have h1 : p.1 = k := beq_iff_eq.mp hpk
      have h2 : p.1 = k' := beq_iff_eq.mp hk'
      rw [beq_iff_eq, ← h2, h1]
    · simp only [Function.comp_apply, hk']
      simpa using hpk
  · simp only [h', Bool.false_eq_true, if_false]
    unfold mapHas at h ⊢
    rw [List.any_append, h]
    simp

/-- Lemma: `processEntry` never touches the transcript fields while the
current transcript text is truthy (non-empty). -/
theorem processEntry_chat_stable (st : LoadState) (e : Str × Str)
    (h : chatFalsy st.chatContent = false) :
    (processEntry st e).chatContent = st.chatContent ∧
    (processEntry st e).chatFilename = st.chatFilename := by
  unfold processEntry
  rw [if_neg (fun hc => absurd hc.2 (by simp [h]))]
  by_cases hm : isMediaFile (lastSeg e.1) = true <;> simp [hm]

/-- Lemma: `loadEntries` never touches the transcript fields while the
transcript text is truthy. -/
theorem loadEntries_chat_stable (entries : List (Str × Str)) (st : LoadState)
    (h : chatFalsy st.chatContent = false) :
    (loadEntries st entries).chatContent = st.chatContent ∧
    (loadEntries st entries).chatFilename = st.chatFilename := by
  induction entries generalizing st with
  | nil => exact ⟨rfl, rfl⟩
  | cons e rest ih =>
    have hstep := processEntry_chat_stable st e h
    have hf : chatFalsy (processEntry st e).chatContent = false := by
      rw [hstep.1]; exact h
    have hrec := ih (processEntry st e) hf
    exact ⟨hrec.1.trans hstep.1, hrec.2.trans hstep.2⟩

/-- In a fresh load state, and provided every transcript-like entry
decodes to non-empty text, the transcript is the first entry whose last
path segment ends in `.txt`, and the transcript slot stays falsy
exactly when no such entry exists. -/
theorem loadEntries_chat (entries : List (Str × Str)) (st : LoadState)
    (h0 : st.chatContent = none) (h1 : st.chatFilename = none)
    (hne : ∀ e ∈ entries, endsWithTxt (lastSeg e.1) = true → ¬ e.2 = []) :
    (loadEntries st entries).chatFilename
      = (entries.find? (fun e => endsWithTxt (lastSeg e.1))).map (fun e => lastSeg e.1)
  ∧ (chatFalsy (loadEntries st entries).chatContent = true ↔
      (entries.find? (fun e => endsWithTxt (lastSeg e.1))) = none) := by
  induction entries generalizing st with
  | nil => exact ⟨h1, by simp [loadEntries, h0, List.find?, chatFalsy]⟩
  | cons e rest ih =>
    by_cases ht : endsWithTxt (lastSeg e.1) = true
    · have hfalsy : chatFalsy st.chatContent = true := by rw [h0]; rfl
      have hstep : processEntry st e =
          { st with chatContent := some e.2, chatFilename := some (lastSeg e.1) } := by
        unfold processEntry
        rw [if_pos ⟨ht, hfalsy⟩]
      have hdata : ¬ e.2 = [] := hne e (by simp) ht
      have hf : chatFalsy (processEntry st e).chatContent = false := by
        rw [hstep]
        show chatFalsy (some e.2) = false
        cases he : e.2 with
        | nil => exact absurd he hdata
        | cons a l => rfl
      have hstable := loadEntries_chat_stable rest (processEntry st e) hf
      have hfind : (e :: rest).find? (fun e => endsWithTxt (lastSeg e.1)) = some e := by
        simp [List.find?, ht]
      constructor
      · rw [show loadEntries st (e :: rest) = loadEntries (processEntry st e) rest from rfl]
        rw [hstable.2, hstep, hfind]
        rfl
      · rw [show loadEntries st (e :: rest) = loadEntries (processEntry st e) rest from rfl]
        rw [hstable.1, hstep, hfind]
        constructor
        · intro hcf
          exfalso
          have hcf' : chatFalsy (some e.2) = true := hcf
          cases he : e.2 with
          | nil => exact hdata he
          | cons a l =>
            rw [he] at hcf'
            simp [chatFalsy] at hcf'
        · intro hcontra
          exact Option.noConfusion hcontra
    · have hstep2 : (processEntry st e).chatContent = st.chatContent ∧
          (processEntry st e).chatFilename = st.chatFilename := by
        unfold processEntry
        rw [if_neg (fun hc => ht hc.1)]
        by_cases hm : isMediaFile (lastSeg e.1) = true <;> simp [hm]
      have hrec := ih (processEntry st e) (hstep2.1.trans h0) (hstep2.2.trans h1)
        (fun e' he' het => hne e' (by simp [he']) het)
      have hfind : (e :: rest).find? (fun e => endsWithTxt (lastSeg e.1))
          = rest.find? (fun e => endsWithTxt (lastSeg e.1)) := by
        simp [List.find?, ht]
      exact ⟨by rw [show loadEntries st (e :: rest) = loadEntries (processEntry st e) rest from rfl,
                hrec.1, hfind],
             by rw [show loadEntries st (e :: rest) = loadEntries (processEntry st e) rest from rfl,
                hfind]; exact hrec.2⟩

/-- Media entries only accumulate during loading. -/
theorem loadEntries_media_mono (entries : List (Str × Str)) (st : LoadState) (k : Str)
    (h : mapHas st.mediaFiles k = true) :
    mapHas (loadEntries st entries).mediaFiles k = true := by
  induction entries generalizing st with
  | nil => exact h
  | cons e rest ih =>
    refine ih (processEntry st e) ?_
    unfold processEntry
    by_cases hc : endsWithTxt (lastSeg e.1) = true ∧ chatFalsy st.chatContent = true
    · rw [if_pos hc]; exact h
    · rw [if_neg hc]
      by_cases hm : isMediaFile (lastSeg e.1) = true
      · simp only [hm, if_true]
        exact mapHas_mapSet_mono st.mediaFiles k (lastSeg e.1) e.2 h
      · simp only [hm, Bool.false_eq_true, if_false]
        exact h

/-- C9, amended: only the last path segment of each archive entry is
the logical filename; provided every transcript-like (`.txt`) entry
decodes to non-empty text, the first such entry becomes the transcript,
and a *later* `.txt` entry is not ignored — it is retained as a media
entry, since `txt` is in the media-extension list.  (Without that
proviso the source's falsy `!this.chatContent` check lets a later
`.txt` replace an empty transcript, as the counterexample shows.) -/
theorem C9_amended (st : LoadState) (entries : List (Str × Str))
    (h0 : st.chatContent = none) (h1 : st.chatFilename = none)
    (hne : ∀ e ∈ entries, endsWithTxt (lastSeg e.1) = true → ¬ e.2 = []) :
    (loadEntries st entries).chatFilename
      = (entries.find? (fun e => endsWithTxt (lastSeg e.1))).map (fun e => lastSeg e.1)
  ∧ (∀ pre e post, entries = pre ++ e :: post → endsWithTxt (lastSeg e.1) = true →
      (∃ p, p ∈ pre ∧ endsWithTxt (lastSeg p.1) = true) →
      mapHas (loadEntries st entries).mediaFiles (lastSeg e.1) = true) := by
  refine ⟨(loadEntries_chat entries st h0 h1 hne).1, ?_⟩
  rintro pre e post rfl ht ⟨p, hp, hpt⟩
  have hprene : ∀ e' ∈ pre, endsWithTxt (lastSeg e'.1) = true → ¬ e'.2 = [] :=
    fun e' he' het => hne e' (by simp [he']) het
  have hsplitload : loadEntries st (pre ++ e :: post)
      = loadEntries (processEntry (loadEntries st pre) e) post := by
    unfold loadEntries
    rw [List.foldl_append]
    rfl
  have hchat : chatFalsy (loadEntries st pre).chatContent = false := by
    cases hcf : chatFalsy (loadEntries st pre).chatContent with
    | false => rfl
    | true =>
      exfalso
      have hiff := (loadEntries_chat pre st h0 h1 hprene).2
      have := hiff.mp hcf
      rw [List.find?_eq_none] at this
      exact absurd hpt (by simpa using this p hp)
  have hmid : mapHas (processEntry (loadEntries st pre) e).mediaFiles
      (lastSeg e.1) = true := by
    unfold processEntry
    rw [if_neg (fun hc => absurd hc.2 (by simp [hchat]))]
    rw [if_pos (endsWithTxt_isMediaFile _ ht)]
    exact mapHas_mapSet_self _ _ _
  rw [hsplitload]
  exact loadEntries_media_mono post _ _ hmid

/-- Witness for C9, amended, at the two-entry archive
`a/chat.txt`, `b/other.txt` with non-empty transcript text. -/
theorem C9_amended_witness :
    initialLoadState.chatContent = none
  ∧ initialLoadState.chatFilename = none
  ∧ (∀ e ∈ ([(str "a/chat.txt", str "Chat content"), (str "b/other.txt", str "Other")] :
        List (Str × Str)), endsWithTxt (lastSeg e.1) = true → ¬ e.2 = [])
  ∧ ((loadEntries initialLoadState
        [(str "a/chat.txt", str "Chat content"), (str "b/other.txt", str "Other")]).chatFilename
      = (([(str "a/chat.txt", str "Chat content"), (str "b/other.txt", str "Other")].find?
            (fun e => endsWithTxt (lastSeg e.1))).map (fun e => lastSeg e.1))
  ∧ (∀ pre e post,
      [(str "a/chat.txt", str "Chat content"), (str "b/other.txt", str "Other")]
        = pre ++ e :: post →
      endsWithTxt (lastSeg e.1) = true →
      (∃ p, p ∈ pre ∧ endsWithTxt (lastSeg p.1) = true) →
      mapHas (loadEntries initialLoadState
        [(str "a/chat.txt", str "Chat content"), (str "b/other.txt", str "Other")]).mediaFiles
        (lastSeg e.1) = true)) :=
  ⟨rfl, rfl, by decide,
   C9_amended initialLoadState
     [(str "a/chat.txt", str "Chat content"), (str "b/other.txt", str "Other")]
     rfl rfl (by decide)⟩

/-- A key is in the map exactly when it is among the keys. -/
theorem mapHas_iff_mem_keys {α : Type} (m : List (Str × α)) (k : Str) :
    mapHas m k = true ↔ k ∈ m.map (fun p => p.1) := by
  unfold mapHas
  rw [List.any_eq_true]
  constructor
  · rintro ⟨p, hp, hpk⟩
    exact List.mem_map.mpr ⟨p, hp, beq_iff_eq.mp hpk⟩
  · intro hk
    obtain ⟨p, hp, hpe⟩ := List.mem_map.mp hk
    exact ⟨p, hp, by rw [hpe]; exact beq_self_eq_true k⟩

/-- A present key has a value. -/
theorem mapHas_mapGet {α : Type} (m : List (Str × α)) (k : Str)
    (h : mapHas m k = true) : ∃ v, mapGet m k = some v := by
  unfold mapGet
  unfold mapHas at h
  cases hf : m.find? (fun p => p.1 == k) with
  | none =>
    rw [List.find?_eq_none] at hf
    rw [List.any_eq_true] at h
    obtain ⟨p, hp, hpk⟩ := h
    exact absurd hpk (hf p hp)
  | some p => exact ⟨p.2, by simp [hf]⟩

/-- A looked-up value is among the stored values. -/
theorem mapGet_mem_values {α : Type} (m : List (Str × α)) (k : Str) (v : α)
    (h : mapGet m k = some v) : v ∈ m.map (fun p => p.2) := by
  unfold mapGet at h
  cases hf : m.find? (fun p => p.1 == k) with
  | none => rw [hf] at h; exact Option.noConfusion h
  | some p =>
    rw [hf] at h
    obtain rfl : p.2 = v := by simpa using h
    exact List.mem_map_of_mem _ (List.mem_of_find?_eq_some hf)

/-- The keys of `Map.delete` are the keys with the deleted one filtered
out. -/
theorem keys_mapDelete {α : Type} (m : List (Str × α)) (k : Str) :
    (mapDelete m k).map (fun p => p.1)
      = (m.map (fun p => p.1)).filter (fun x => ! (x == k)) := by
  induction m with
  | nil => rfl
  | cons p m' ih =>
    by_cases hp : (p.1 == k) = true
    · simp only [mapDelete, List.filter, hp, Bool.not_true, List.map_cons] at ih ⊢
      exact ih
    · have hp' : (p.1 == k) = false := by
        cases hb : p.1 == k
        · rfl
        · exact absurd hb hp
      simp only [mapDelete, List.filter, hp', Bool.not_false, List.map_cons] at ih ⊢
      rw [ih]

/-- Deleting a present key from a nodup-keyed map drops exactly one
entry. -/
theorem length_mapDelete {α : Type} (m : List (Str × α)) (k : Str)
    (hnd : keysNodup m) (h : mapHas m k = true) :
    (mapDelete m k).length = m.length - 1 := by
  have h1 : (mapDelete m k).length = ((mapDelete m k).map (fun p => p.1)).length := by
    rw [List.length_map]
  have h2 : m.length = (m.map (fun p => p.1)).length := by rw [List.length_map]
  rw [h1, keys_mapDelete, h2]
  have herase : (m.map (fun p => p.1)).erase k
      = (m.map (fun p => p.1)).filter (fun x => ! (x == k)) := by
    rw [List.Nodup.erase_eq_filter hnd]
    simp [bne]
  rw [← herase]
  exact List.length_erase_of_mem ((mapHas_iff_mem_keys m k).mp h)

/-- The values of `Map.delete` on a present key are the values minus
one occurrence of the deleted value. -/
theorem values_mapDelete_perm {α : Type} [DecidableEq α] (m : List (Str × α)) (k : Str) (v : α)
    (hnd : keysNodup m) (h : mapGet m k = some v) :
    ((mapDelete m k).map (fun p => p.2)).Perm ((m.map (fun p => p.2)).erase v) := by
  induction m with
  | nil => exact Option.noConfusion h
  | cons p m' ih =>
    have hnd' : keysNodup m' := (List.nodup_cons.mp hnd).2
    have hknotin : p.1 ∉ m'.map (fun q : Str × α => q.1) := (List.nodup_cons.mp hnd).1
    by_cases hp : (p.1 == k) = true
    · -- the head is the deleted entry
      have hpk : p.1 = k := beq_iff_eq.mp hp
      have hv : p.2 = v := by
        unfold mapGet at h
        simp only [List.find?, hp] at h
        simpa using h
      have hnotin : mapHas m' k = false := by
        cases hb : mapHas m' k
        · rfl
        · exact absurd (hpk ▸ (mapHas_iff_mem_keys m' k).mp hb) hknotin
      have hdel : mapDelete m' k = m' := by
        unfold mapDelete
        rw [List.filter_eq_self]
        intro q hq
        cases hbq : q.1 == k
        · rfl
        · exact absurd (beq_iff_eq.mp hbq ▸ List.mem_map_of_mem (fun q : Str × α => q.1) hq)
            (hpk ▸ hknotin)
      simp only [mapDelete, List.filter, hp, Bool.not_true]
      rw [show (List.filter (fun q : Str × α => ! (q.1 == k)) m') = mapDelete m' k from rfl]
      rw [hdel, List.map_cons, hv, List.erase_cons_head]
    · -- the head survives
      have hget : mapGet m' k = some v := by
        unfold mapGet at h ⊢
        simpa only [List.find?, hp] using h
      have hvm : v ∈ m'.map (fun q : Str × α => q.2) := mapGet_mem_values m' k v hget
      simp only [mapDelete, List.filter, hp, Bool.not_false, List.map_cons]
      by_cases hveq : p.2 = v
      · subst hveq
        have h1 : ((List.filter (fun q : Str × α => ! (q.1 == k)) m').map
              (fun q => q.2)).Perm ((m'.map (fun q => q.2)).erase p.2) := ih hnd' hget
        have h2 : (p.2 :: (m'.map (fun q : Str × α => q.2)).erase p.2).Perm
            (m'.map (fun q => q.2)) := (List.perm_cons_erase hvm).symm
        rw [List.erase_cons_head]
        exact (h1.cons p.2).trans h2
      · have : (p.2 :: m'.map (fun q : Str × α => q.2)).erase v
            = p.2 :: (m'.map (fun q : Str × α => q.2)).erase v := by
          rw [List.erase_cons_tail]
          cases hb : p.2 == v
          · simp
          · exact absurd (beq_iff_eq.mp hb) hveq
        rw [this]
        exact (ih hnd' hget).cons p.2

/-- Moving an element of a duplicate-free list to the back is a
permutation. -/
theorem perm_filter_not_beq_append (l : List Str) (k : Str)
    (hnd : l.Nodup) (hk : k ∈ l) :
    (l.filter (fun x => ! (x == k)) ++ [k]).Perm l := by
  induction l with
  | nil => cases hk
  | cons a l ih =>
    obtain ⟨hanotin, hlnd⟩ := List.nodup_cons.mp hnd
    by_cases hak : a = k
    · subst hak
      have hfl : l.filter (fun x => ! (x == a)) = l := by
        rw [List.filter_eq_self]
        intro x hx
        cases hb : x == a with
        | false => rfl
        | true => exact absurd (beq_iff_eq.mp hb ▸ hx) hanotin
      simp only [List.filter, beq_self_eq_true, Bool.not_true, hfl]
      exact List.perm_append_singleton a l
    · have hkl : k ∈ l := by
        rcases List.mem_cons.mp hk with h | h
        · exact absurd h.symm hak
        · exact h
      have hab : (a == k) = false := by
        cases hb : a == k with
        | false => rfl
        | true => exact absurd (beq_iff_eq.mp hb) hak
      simp only [List.filter, hab, Bool.not_false, List.cons_append]
      exact (ih hlnd hkl).cons a

/-- Erasing an element present in the tail commutes (as a permutation)
with consing a fresh head. -/
theorem erase_cons_perm (b v : Nat) (l : List Nat) (hv : v ∈ l) :
    ((b :: l).erase v).Perm (b :: l.erase v) := by
  by_cases hbv : b = v
  · subst hbv
    rw [List.erase_cons_head]
    exact List.perm_cons_erase hv
  · rw [List.erase_cons_tail (by simpa using hbv)]

/-- The live set after an extended trace folds the extension into the
live set of the prefix. -/
theorem live_append (evs more : List Ev) :
    live (evs ++ more) = more.foldl applyEv (live evs) :=
  List.foldl_append _ _ _ _

/-- Lemma: `LRUCache.get` on a present key returns the cached value and
the key moves to the most-recently-used end. -/
theorem LRUCache_get_hit (c : LRUCache) (k : Str) (h : mapHas c.cache k = true) :
    ∃ v, mapGet c.cache k = some v ∧
      c.get k = (some v,
        { c with accessOrder := (c.accessOrder.filter (fun x => ! (x == k))) ++ [k] }) := by
  obtain ⟨v, hv⟩ := mapHas_mapGet _ _ h
  refine ⟨v, hv, ?_⟩
  unfold LRUCache.get
  rw [if_neg (fun hn => hn h), hv]

/-- Lemma: `LRUCache.get` on an absent key returns `null` and changes
nothing. -/
theorem LRUCache_get_miss (c : LRUCache) (k : Str) (h : mapHas c.cache k = false) :
    c.get k = (none, c) := by
  unfold LRUCache.get
  rw [if_pos (by simp [h])]

/-- Lemma: `LRUCache.set` of a new key with room appends to cache and access
order, no eviction. -/
theorem LRUCache_set_new_noevict (c : LRUCache) (k : Str) (v : Nat)
    (h : mapHas c.cache k = false) (hroom : ¬ c.maxSize ≤ c.cache.length) :
    c.set k v = ({ c with
        cache := c.cache ++ [(k, v)],
        accessOrder := c.accessOrder ++ [k] }, none) := by
  unfold LRUCache.set
  rw [if_neg (by simp [h])]
  simp only [if_neg hroom]

/-- Lemma: `LRUCache.set` of a new key at capacity: the least-recently-used
key is deleted and reported, then the new entry is appended. -/
theorem LRUCache_set_new_evict (c : LRUCache) (k : Str) (v : Nat)
    (lru : Str) (restAO : List Str)
    (h : mapHas c.cache k = false) (hfull : c.maxSize ≤ c.cache.length)
    (hao : c.accessOrder = lru :: restAO) :
    c.set k v = ({ c with
        cache := mapDelete c.cache lru ++ [(k, v)],
        accessOrder := restAO ++ [k] }, some (lru, mapGet c.cache lru)) := by
  unfold LRUCache.set
  rw [if_neg (by simp [h])]
  simp only [if_pos hfull, hao]

/-- One `getMediaURL` call preserves the cache invariant, never changes
the configured capacity, and every partial trace of the call keeps at
most `capacity + 1` handles live. -/
theorem getMediaURL_inv (zh : ZipHandler) (ctr : Nat) (f : Str) (evs : List Ev)
    (inv : CacheInv zh evs) :
    CacheInv (zh.getMediaURL ctr f).2.1 (evs ++ (zh.getMediaURL ctr f).2.2.2)
  ∧ (zh.getMediaURL ctr f).2.1.maxCacheSize = zh.maxCacheSize
  ∧ ∀ j, (((zh.getMediaURL ctr f).2.2.2.take j).foldl applyEv (live evs)).length
        ≤ zh.maxCacheSize + 1 := by
  have hlivelen : (live evs).length = zh.urlCache.cache.length := by
    rw [inv.liveVals.length_eq, List.length_map]
  have hlivele : (live evs).length ≤ zh.maxCacheSize := by
    rw [hlivelen, ← inv.maxEq]
    exact inv.sizeLe
  by_cases hskip : f = [] ∨ ¬ mapHas zh.mediaFiles f = true
  · have hres : zh.getMediaURL ctr f = (none, zh, ctr, []) := by
      unfold ZipHandler.getMediaURL
      rw [if_pos hskip]
    rw [hres]
    refine ⟨by simpa using inv, rfl, fun j => ?_⟩
    simp only [List.take_nil, List.foldl_nil]
    omega
  · by_cases hHasC : mapHas zh.urlCache.cache f = true
    · -- cache hit: cached URL returned, key moved to the MRU end
      obtain ⟨v, _hv, hget⟩ := LRUCache_get_hit zh.urlCache f hHasC
      have hres : zh.getMediaURL ctr f =
          (some v, { zh with urlCache :=
            { zh.urlCache with accessOrder :=
                (zh.urlCache.accessOrder.filter (fun x => ! (x == f))) ++ [f] } },
           ctr, []) := by
        simp only [ZipHandler.getMediaURL]
        rw [if_neg hskip, hget]
      rw [hres]
      have hfin : f ∈ zh.urlCache.accessOrder :=
        inv.aoKeys.mem_iff.mpr ((mapHas_iff_mem_keys _ _).mp hHasC)
      have hperm : ((zh.urlCache.accessOrder.filter (fun x => ! (x == f))) ++ [f]).Perm
          zh.urlCache.accessOrder :=
        perm_filter_not_beq_append _ _ inv.aoNodup hfin
      refine ⟨⟨by simpa using inv.liveVals, hperm.symm.nodup inv.aoNodup,
        hperm.trans inv.aoKeys, inv.sizeLe, inv.maxEq, inv.maxPos⟩, rfl, fun j => ?_⟩
      simp only [List.take_nil, List.foldl_nil]
      omega
    · -- cache miss: a fresh URL is created, then inserted
      have hmiss : mapHas zh.urlCache.cache f = false := by
        cases hb : mapHas zh.urlCache.cache f with
        | false => rfl
        | true => exact absurd hb hHasC
      have hgetm := LRUCache_get_miss zh.urlCache f hmiss
      have hkeysnd : (zh.urlCache.cache.map (fun p => p.1)).Nodup :=
        inv.aoKeys.nodup inv.aoNodup
      have hfnotin : f ∉ zh.urlCache.accessOrder := by
        intro hin
        exact hHasC ((mapHas_iff_mem_keys _ _).mpr (inv.aoKeys.mem_iff.mp hin))
      by_cases hfull : zh.urlCache.maxSize ≤ zh.urlCache.cache.length
      · -- at capacity: the LRU entry is evicted and revoked
        obtain ⟨lru, restAO, hao⟩ :
            ∃ lru restAO, zh.urlCache.accessOrder = lru :: restAO := by
          cases hc : zh.urlCache.accessOrder with
          | nil =>
            exfalso
            have h1 : zh.urlCache.accessOrder.length = zh.urlCache.cache.length := by
              rw [inv.aoKeys.length_eq, List.length_map]
            rw [hc] at h1
            have := inv.maxPos
            simp only [List.length_nil] at h1
            omega
          | cons a b => exact ⟨a, b, rfl⟩
        have hlrumem : lru ∈ zh.urlCache.cache.map (fun p => p.1) :=
          inv.aoKeys.mem_iff.mp (by rw [hao]; exact List.mem_cons_self _ _)
        have hlruHas : mapHas zh.urlCache.cache lru = true :=
          (mapHas_iff_mem_keys _ _).mpr hlrumem
        obtain ⟨v, hv⟩ := mapHas_mapGet _ _ hlruHas
        have hset := LRUCache_set_new_evict zh.urlCache f ctr lru restAO hmiss hfull hao
        rw [hv] at hset
        have hres : zh.getMediaURL ctr f =
            (some ctr, { zh with urlCache := { zh.urlCache with
                cache := mapDelete zh.urlCache.cache lru ++ [(f, ctr)],
                accessOrder := restAO ++ [f] } }, ctr + 1,
             [Ev.create ctr, Ev.revoke (some v)]) := by
          simp only [ZipHandler.getMediaURL]
          rw [if_neg hskip, hgetm, hset]
        rw [hres]
        have hvvals : v ∈ zh.urlCache.cache.map (fun p => p.2) :=
          mapGet_mem_values _ _ _ hv
        have hvlive : v ∈ live evs := inv.liveVals.mem_iff.mpr hvvals
        have hrest : restAO.Nodup ∧ lru ∉ restAO := by
          have := inv.aoNodup
          rw [hao] at this
          obtain ⟨h1, h2⟩ := List.nodup_cons.mp this
          exact ⟨h2, h1⟩
        have hfrest : f ∉ restAO := fun hin => hfnotin (by rw [hao]; exact List.mem_cons_of_mem _ hin)
        have haokeys' : ((zh.urlCache.cache.map (fun p => p.1)).filter
            (fun x => ! (x == lru))).Perm restAO := by
          have hfilter := perm_filter_not_beq_append
            (zh.urlCache.cache.map (fun p => p.1)) lru hkeysnd hlrumem
          have haop : (lru :: restAO).Perm (zh.urlCache.cache.map (fun p => p.1)) := by
            rw [← hao]; exact inv.aoKeys
          have h5 := hfilter.trans (haop.symm.trans (List.perm_append_singleton lru restAO).symm)
          exact (List.perm_append_right_iff [lru]).mp h5
        refine ⟨⟨?_, ?_, ?_, ?_, inv.maxEq, inv.maxPos⟩, rfl, fun j => ?_⟩
        · -- live handles = cached values
          rw [live_append]
          simp only [List.foldl_cons, List.foldl_nil, applyEv]
          rw [List.map_append]
          simp only [List.map_cons, List.map_nil]
          have h1 := erase_cons_perm ctr v (live evs) hvlive
          have h2 := inv.liveVals.erase v
          have h3 := (values_mapDelete_perm zh.urlCache.cache lru v hkeysnd hv).symm
          exact h1.trans (((h2.trans h3).cons ctr).trans
            (List.perm_append_singleton ctr _).symm)
        · -- access order nodup
          exact ((List.perm_append_singleton f restAO).symm).nodup
            (List.nodup_cons.mpr ⟨hfrest, hrest.1⟩)
        · -- access order lists the keys
          rw [List.map_append, keys_mapDelete]
          simp only [List.map_cons, List.map_nil]
          exact (haokeys'.symm).append (List.Perm.refl [f])
        · -- size bound
          simp only [List.length_append, List.length_cons, List.length_nil]
          rw [length_mapDelete _ _ hkeysnd hlruHas]
          have h6 := inv.sizeLe
          have h7 := inv.maxPos
          omega
        · -- transient bound along the two new events
          rcases j with _ | _ | j
          · simp only [List.take_zero, List.foldl_nil]
            omega
          · simp only [List.take_succ_cons, List.take_zero, List.foldl_cons,
              List.foldl_nil, applyEv, List.length_cons]
            omega
          · have htake : ([Ev.create ctr, Ev.revoke (some v)].take (j + 1 + 1))
                = [Ev.create ctr, Ev.revoke (some v)] :=
              List.take_of_length_le (by simp)
            rw [htake]
            simp only [List.foldl_cons, List.foldl_nil, applyEv]
            have hle := (List.erase_sublist v (ctr :: live evs)).length_le
            simp only [List.length_cons] at hle
            omega
      · -- below capacity: plain insertion at the MRU end
        have hset := LRUCache_set_new_noevict zh.urlCache f ctr hmiss hfull
        have hres : zh.getMediaURL ctr f =
            (some ctr, { zh with urlCache := { zh.urlCache with
                cache := zh.urlCache.cache ++ [(f, ctr)],
                accessOrder := zh.urlCache.accessOrder ++ [f] } }, ctr + 1,
             [Ev.create ctr]) := by
          simp only [ZipHandler.getMediaURL]
          rw [if_neg hskip, hgetm, hset]
        rw [hres]
        refine ⟨⟨?_, ?_, ?_, ?_, inv.maxEq, inv.maxPos⟩, rfl, fun j => ?_⟩
        · rw [live_append]
          simp only [List.foldl_cons, List.foldl_nil, applyEv]
          rw [List.map_append]
          simp only [List.map_cons, List.map_nil]
          exact ((inv.liveVals.cons ctr).trans (List.perm_append_singleton ctr _).symm)
        · exact ((List.perm_append_singleton f _).symm).nodup
            (List.nodup_cons.mpr ⟨hfnotin, inv.aoNodup⟩)
        · rw [List.map_append]
          simp only [List.map_cons, List.map_nil]
          exact inv.aoKeys.append (List.Perm.refl [f])
        · simp only [List.length_append, List.length_cons, List.length_nil]
          omega
        · rcases j with _ | j
          · simp only [List.take_zero, List.foldl_nil]
            omega
          · have htake : ([Ev.create ctr].take (j + 1)) = [Ev.create ctr] :=
              List.take_of_length_le (by simp)
            rw [htake]
            simp only [List.foldl_cons, List.foldl_nil, applyEv, List.length_cons]
            omega

/-- Any sequence of `getMediaURL` calls preserves the cache invariant,
never changes the capacity, and every prefix of the accumulated trace
keeps at most `capacity + 1` handles live. -/
theorem resolveSeq_inv (names : List Str) (zh : ZipHandler) (ctr : Nat) (evs : List Ev)
    (inv : CacheInv zh evs)
    (hb : ∀ k, (live (evs.take k)).length ≤ zh.maxCacheSize + 1) :
    CacheInv (resolveSeq zh ctr names).1 (evs ++ (resolveSeq zh ctr names).2.2.1)
  ∧ (resolveSeq zh ctr names).1.maxCacheSize = zh.maxCacheSize
  ∧ ∀ k, (live ((evs ++ (resolveSeq zh ctr names).2.2.1).take k)).length
        ≤ zh.maxCacheSize + 1 := by
  induction names generalizing zh ctr evs with
  | nil =>
    simp only [resolveSeq, List.append_nil]
    exact ⟨inv, trivial, fun k => hb k⟩
  | cons f fs ih =>
    obtain ⟨inv', hmax', hnew⟩ := getMediaURL_inv zh ctr f evs inv
    have hb' : ∀ k, (live ((evs ++ (zh.getMediaURL ctr f).2.2.2).take k)).length
        ≤ (zh.getMediaURL ctr f).2.1.maxCacheSize + 1 := by
      intro k
      rw [hmax']
      rw [List.take_append_eq_append_take]
      by_cases hk : k ≤ evs.length
      · rw [show k - evs.length = 0 from by omega]
        simp only [List.take_zero, List.append_nil]
        exact hb k
      · rw [List.take_of_length_le (by omega)]
        rw [live_append]
        exact hnew (k - evs.length)
    obtain ⟨ihinv, ihmax, ihb⟩ := ih (zh.getMediaURL ctr f).2.1 (zh.getMediaURL ctr f).2.2.1
      (evs ++ (zh.getMediaURL ctr f).2.2.2) inv' hb'
    have hassemble : resolveSeq zh ctr (f :: fs)
        = ((resolveSeq (zh.getMediaURL ctr f).2.1 (zh.getMediaURL ctr f).2.2.1 fs).1,
           (resolveSeq (zh.getMediaURL ctr f).2.1 (zh.getMediaURL ctr f).2.2.1 fs).2.1,
           (zh.getMediaURL ctr f).2.2.2
             ++ (resolveSeq (zh.getMediaURL ctr f).2.1 (zh.getMediaURL ctr f).2.2.1 fs).2.2.1,
           (zh.getMediaURL ctr f).1
             :: (resolveSeq (zh.getMediaURL ctr f).2.1 (zh.getMediaURL ctr f).2.2.1 fs).2.2.2) := by
      simp only [resolveSeq]
    rw [hassemble]
    refine ⟨by rw [← List.append_assoc]; exact ihinv, ihmax.trans hmax', fun k => ?_⟩
    rw [← List.append_assoc]
    rw [← hmax']
    exact ihb k

/-- C4, amended: cached display handles never exceed the capacity at
the end of any resolve call, and the least-recently-used entry is
evicted from the cache before the new entry is inserted; but the new
blob URL is created *before* the evicted one is revoked, so within an
eviction-triggering resolve the number of live handles transiently
reaches `capacity + 1` (and never more). -/
theorem C4_amended (cap : Nat) (hcap : 1 ≤ cap) (media : List (Str × Nat))
    (names : List Str) :
    (∀ k, (live ((resolveSeq (freshHandler cap media) 0 names).2.2.1.take k)).length
        ≤ cap + 1)
  ∧ (live (resolveSeq (freshHandler cap media) 0 names).2.2.1).length ≤ cap := by
  have hm : (freshHandler cap media).maxCacheSize = cap := by
    unfold freshHandler mkZipHandler
    simp only
    rw [if_neg (by omega)]
  have hm2 : (freshHandler cap media).urlCache.maxSize = cap := by
    unfold freshHandler mkZipHandler
    simp only
    rw [if_neg (by omega)]
  have inv0 : CacheInv (freshHandler cap media) [] := by
    refine ⟨?_, ?_, ?_, ?_, ?_, ?_⟩
    · exact List.Perm.refl []
    · exact List.nodup_nil
    · exact List.Perm.refl []
    · simp [freshHandler, mkZipHandler]
    · rw [hm, hm2]
    · rw [hm2]; exact hcap
  have hb0 : ∀ k, (live (([] : List Ev).take k)).length
      ≤ (freshHandler cap media).maxCacheSize + 1 := by
    intro k
    simp [live]
  obtain ⟨invf, hmaxf, hbf⟩ := resolveSeq_inv names (freshHandler cap media) 0 [] inv0 hb0
  constructor
  · intro k
    have := hbf k
    rw [List.nil_append] at this
    rw [hm] at this
    exact this
  · have hlen : (live ((resolveSeq (freshHandler cap media) 0 names).2.2.1)).length
        = (resolveSeq (freshHandler cap media) 0 names).1.urlCache.cache.length := by
      have := invf.liveVals
      rw [List.nil_append] at this
      rw [this.length_eq, List.length_map]
    rw [hlen]
    have h1 := invf.sizeLe
    have h2 := invf.maxEq
    rw [h2, hmaxf, hm] at h1
    exact h1

/-- Witness for C4, amended, at capacity 1 with two resolves (the
counterexample's configuration). -/
theorem C4_amended_witness :
    1 ≤ 1
  ∧ ((∀ k, (live ((resolveSeq (freshHandler 1 [(str "f1.jpg", 1), (str "f2.jpg", 2)]) 0
          [str "f1.jpg", str "f2.jpg"]).2.2.1.take k)).length ≤ 1 + 1)
     ∧ (live (resolveSeq (freshHandler 1 [(str "f1.jpg", 1), (str "f2.jpg", 2)]) 0
          [str "f1.jpg", str "f2.jpg"]).2.2.1).length ≤ 1) :=
  ⟨Nat.le.refl,
   C4_amended 1 Nat.le.refl [(str "f1.jpg", 1), (str "f2.jpg", 2)]
     [str "f1.jpg", str "f2.jpg"]⟩

end WAE
